import Mathlib

/-!
# Verification of the news-feed ranking and preference-learning engine

Shallow embedding of the ranking core of the `news-feed` repository:

* `workers/scoring.ts` (recommendation algorithm: scoring variants,
  diversity rerankers, bell-curve normalizer, weight updater), and
* `workers/embeddings.ts` (HTTP worker: vote / save / backfill handlers,
  phase selection, cosine similarity and the direct content score).

Modelling conventions:

* JavaScript numbers are embedded as exact rationals `ℚ` for the scoring,
  weight-update and reranking code (whose arithmetic is `+ * / min max` and
  rounding to two decimals), and as reals `ℝ` for the two functions that call
  `Math.sqrt` (the score normalizer and cosine similarity).
* `Math.round(x)` is `⌊x + 1/2⌋` (JavaScript rounds half-up); rounding to two
  decimals `Math.round(x*100)/100` is `jsRound2`.
* `Date.now()` is passed explicitly as a millisecond timestamp `now : ℤ`;
  `getMinutes`/`getSeconds` are decoded from the epoch timestamp (UTC).
* The D1/SQLite tables that the handlers touch are modelled per-user as plain
  data: the `votes` table as a list of rows in `voted_at` order (an upsert
  refreshes `voted_at`, so it moves the row to the end of that order), and
  `interest_weights` as two keyed maps `ℤ → Option ℚ`, one per dimension,
  with the `INSERT … ON CONFLICT(user_id, category_id, source_id) DO UPDATE`
  statements modelled as keyed upserts as written.
* A JavaScript map/object read `m[k] || 1.0` yields the default both when the
  key is absent and when the stored value is `0` (`0` is falsy); `getWeight`
  reproduces this.
-/

namespace NewsFeed

/-- `Math.round x` in JavaScript: round half toward `+∞`. -/
def jsRound (x : ℚ) : ℚ := (⌊x + 1/2⌋ : ℤ)

/-- `Math.round(x * 100) / 100`: round to two decimal places
(`scoring.ts` rounds every score this way). -/
def jsRound2 (x : ℚ) : ℚ := (⌊x * 100 + 1/2⌋ : ℤ) / 100

/-- `clamp` from `workers/scoring.ts`:
`Math.min(Math.max(value, min), max)`. -/
def clamp (value min_ max_ : ℚ) : ℚ := min (max value min_) max_

/-- One dimension of the per-user `interest_weights` table: a keyed map from
category id (resp. source id) to the stored weight. `none` = no row. -/
def WeightMap : Type := ℤ → Option ℚ

/-- The empty weight map (no `interest_weights` rows). -/
def WeightMap.empty : WeightMap := fun _ => none

/-- Keyed upsert into one dimension of `interest_weights`. -/
def WeightMap.set (m : WeightMap) (k : ℤ) (w : ℚ) : WeightMap :=
  fun k' => if k' = k then some w else m k'

/-- `weights.categories[id] || 1.0`: default `1.0` when the key is absent
*or* when the stored value is `0` (JavaScript `0` is falsy). -/
def WeightMap.get (m : WeightMap) (k : ℤ) : ℚ :=
  match m k with
  | none => 1
  | some w => if w = 0 then 1 else w

/-- `ScoringWeights` from `src/lib/types.ts`: per-user category and source
multiplier maps. -/
structure ScoringWeights where
  categories : WeightMap
  sources : WeightMap

/-- Default weights: no stored rows, every lookup yields `1.0`. -/
def ScoringWeights.default : ScoringWeights :=
  { categories := WeightMap.empty, sources := WeightMap.empty }

/-- `Article` from `src/lib/types.ts`, restricted to the fields the ranking
core reads: `id`, `category_id`, `source_id`, `published_at` (epoch
milliseconds) and the computed `score` field. Display fields (title, url, …)
are never read by the scoring code and are omitted. -/
structure Article where
  id : ℤ
  category_id : ℤ
  source_id : ℤ
  published_at : ℤ
  score : Option ℚ := none
deriving DecidableEq

/-- `article.score || 0` (a stored score of `0` also yields `0`). -/
def Article.scoreOrZero (a : Article) : ℚ := a.score.getD 0

/-- `updateWeights` from `workers/scoring.ts`: adjust the voted article's
category and source weights by `±0.1` and clamp into `[0.1, 2.0]`.
Note `adjustment = vote === 1 ? 0.1 : -0.1`: every vote value other than `1`
(including `0`) yields the `-0.1` adjustment. -/
def updateWeights (vote : ℤ) (article : Article) (currentWeights : ScoringWeights) :
    ScoringWeights :=
  let adjustment : ℚ := if vote = 1 then 1/10 else -(1/10)
  let currentCategoryWeight := currentWeights.categories.get article.category_id
  let currentSourceWeight := currentWeights.sources.get article.source_id
  { categories :=
      currentWeights.categories.set article.category_id
        (clamp (currentCategoryWeight + adjustment) (1/10) 2)
    sources :=
      currentWeights.sources.set article.source_id
        (clamp (currentSourceWeight + adjustment) (1/10) 2) }

/-- Per-user slice of the database state touched by the vote/save handlers in
`workers/embeddings.ts`: the `votes` rows (with the joined article, in
`voted_at` order), the `interest_weights` maps, and the `saved_articles`
rows. -/
structure DBState where
  votes : List (Article × ℤ)
  weights : ScoringWeights
  saved : List ℤ

/-- Fresh user: no votes, no weights, no saves. -/
def DBState.initial : DBState :=
  { votes := [], weights := ScoringWeights.default, saved := [] }

/-- `handleVote` from `workers/embeddings.ts` (effect on the per-user state):
vote `0` deletes the vote row, any other value upserts it (the upsert sets
`voted_at = CURRENT_TIMESTAMP`, moving the row to the end of the
chronological order); then the weights are updated through `updateWeights`
with the request's vote value — including for vote `0` — and the two touched
rows are written back. -/
def handleVote (vote : ℤ) (article : Article) (s : DBState) : DBState :=
  let remaining := s.votes.filter (fun r => r.1.id ≠ article.id)
  let votes' := if vote = 0 then remaining else remaining ++ [(article, vote)]
  { votes := votes'
    weights := updateWeights vote article s.weights
    saved := s.saved }

/-- `handleBackfillWeights` from `workers/embeddings.ts`: replay the rows of
the `votes` table (joined with `articles`, ordered by `voted_at`) through
`updateWeights`, starting from cleared weights. With no votes the handler
returns early and leaves the stored weights untouched. -/
def handleBackfillWeights (s : DBState) : DBState :=
  if s.votes = [] then s
  else
    { s with
      weights := s.votes.foldl
        (fun w r => updateWeights r.2 r.1 w) ScoringWeights.default }

/-- `handleSaveArticle` from `workers/embeddings.ts`: `INSERT OR IGNORE` into
`saved_articles`, `INSERT OR IGNORE` a `+1` row into `votes`, then raise the
article's category and source weights: insert `1.1` when no row exists,
otherwise `weight = MIN(weight * 1.1, 2.0)`. -/
def handleSaveArticle (article : Article) (s : DBState) : DBState :=
  let saved' := if article.id ∈ s.saved then s.saved else s.saved ++ [article.id]
  let votes' :=
    if (s.votes.find? (fun r => r.1.id = article.id)).isSome then s.votes
    else s.votes ++ [(article, 1)]
  let bump : Option ℚ → ℚ := fun row =>
    match row with
    | none => 11/10
    | some w => min (w * (11/10)) 2
  { votes := votes'
    weights :=
      { categories :=
          s.weights.categories.set article.category_id
            (bump (s.weights.categories article.category_id))
        sources :=
          s.weights.sources.set article.source_id
            (bump (s.weights.sources article.source_id)) }
    saved := saved' }

/-- The three algorithm phases of `handleGetFeed`. -/
inductive Phase where
  | loggedOut
  | onboarding
  | adoption
deriving DecidableEq

/-- Phase selection from `handleGetFeed`: `isLoggedOut = (userId === 0)`;
logged-in users with fewer than 10 vote rows are onboarding, with 10 or more
they are in adoption. `voteCount` is the number of rows of the `votes`
table for the user. -/
def selectPhase (isLoggedOut : Bool) (voteCount : ℕ) : Phase :=
  if isLoggedOut then .loggedOut
  else if voteCount < 10 then .onboarding
  else .adoption

/-- Incremental application of the vote handler to a chronological list of
vote events `(article, value)`, starting from state `s`. -/
def applyVoteEvents (s : DBState) (events : List (Article × ℤ)) : DBState :=
  events.foldl (fun st e => handleVote e.2 e.1 st) s

/-!
## Scoring engine (`workers/scoring.ts`)

Every scoring function starts from `(now - publishedAt)` in hours; `now` is
threaded explicitly. `getMinutes`/`getSeconds` of the publish date are decoded
from the epoch-millisecond timestamp (UTC). -/

/-- `(now.getTime() - publishedAt.getTime()) / (1000 * 60 * 60)`. -/
def hoursOld (now : ℤ) (article : Article) : ℚ :=
  ((now : ℚ) - (article.published_at : ℚ)) / (1000 * 60 * 60)

/-- `publishedAt.getMinutes() + publishedAt.getSeconds() / 60` (UTC decode of
the epoch-millisecond timestamp). -/
def publishMinutes (article : Article) : ℚ :=
  ((article.published_at / 60000 % 60 : ℤ) : ℚ) +
    ((article.published_at / 1000 % 60 : ℤ) : ℚ) / 60

/-- `calculateOnboardingScore` from `workers/scoring.ts`: base 100; articles
younger than 24h keep the full score, older ones decay by
`max(0.3, 1 - hoursOld/48)`; then `×2.0` if the category is unseen and
`×1.5` if the source is unseen; rounded to 2 decimals. -/
def calculateOnboardingScore (now : ℤ) (article : Article)
    (seenSourceIds seenCategoryIds : Finset ℤ) : ℚ :=
  let h := hoursOld now article
  let recency : ℚ := if h < 24 then 1 else max (3/10) (1 - h / 48)
  let catBonus : ℚ := if article.category_id ∈ seenCategoryIds then 1 else 2
  let srcBonus : ℚ := if article.source_id ∈ seenSourceIds then 1 else 3/2
  jsRound2 (100 * recency * catBonus * srcBonus)

/-- The high-volume source allow-list of `calculateAdoptionScore`
(`const highVolumeSources = [4]`). -/
def highVolumeSources : List ℤ := [4]

/-- `calculateAdoptionScore` from `workers/scoring.ts`: base 100, recency
decay `max(0.1, 1 - hoursOld/recencyDecayHours)`, breaking-news boost
(`×1.8`, or `×1.4` for high-volume sources) when `hoursOld < 2`, multiplied
by the category and source interest weights, diversity bonuses (`×1.5` unseen
category, `×1.3` unseen source), then the deterministic publish-minute
(±4%) and article-id (±2%) tie-break perturbations; rounded to 2 decimals. -/
def calculateAdoptionScore (now : ℤ) (article : Article)
    (recencyDecayHours : ℚ) (seenSourceIds seenCategoryIds : Finset ℤ)
    (weights : ScoringWeights) : ℚ :=
  let h := hoursOld now article
  let recencyMultiplier := max (1/10) (1 - h / recencyDecayHours)
  let breaking : ℚ :=
    if h < 2 then (if article.source_id ∈ highVolumeSources then 7/5 else 9/5)
    else 1
  let categoryWeight := weights.categories.get article.category_id
  let sourceWeight := weights.sources.get article.source_id
  let catBonus : ℚ := if article.category_id ∈ seenCategoryIds then 1 else 3/2
  let srcBonus : ℚ := if article.source_id ∈ seenSourceIds then 1 else 13/10
  let timeVariation := publishMinutes article / 60 * (8/100) - 4/100
  let idVariation := ((article.id % 1000 : ℤ) : ℚ) / 1000 * (4/100) - 2/100
  jsRound2 (100 * recencyMultiplier * breaking * (categoryWeight * sourceWeight)
    * catBonus * srcBonus * (1 + timeVariation) * (1 + idVariation))

/-!
## Diversity rerankers (`workers/scoring.ts`)

The `scoreAndSortArticles*` functions score every candidate (the mutable
`seenSourceIds`/`seenCategoryIds` sets are still empty while the scoring
`map` runs, and are never read afterwards — only the dedicated
`usedCategoriesInFirstSix` set and the count maps are), sort by score
descending, then run the greedy selection loops. Each loop iteration removes
exactly one article from the pool, so the loops are embedded with an explicit
fuel argument instantiated with the pool length. -/

instance : Inhabited Article :=
  ⟨{ id := 0, category_id := 0, source_id := 0, published_at := 0 }⟩

/-- `scored.sort((a, b) => (b.score || 0) - (a.score || 0))`: stable sort by
score descending (`Array.prototype.sort` is specified to be stable; a stable
sort by a total comparator is a unique function of its input, so it is
modelled by insertion sort, which the kernel can evaluate). -/
def sortByScoreDesc (l : List Article) : List Article :=
  l.insertionSort (fun a b => b.scoreOrZero ≤ a.scoreOrZero)

/-- The scan `for (i …) { if (!eligible) continue; if (score > bestScore)
{bestIndex = i; bestScore = score} }` with `bestIndex = -1`, `bestScore = -1`
initially; returns the final `bestIndex` (`none` = `-1`). -/
def bestIdxGo (elig : Article → Bool) :
    List Article → ℕ → Option ℕ → ℚ → Option ℕ
  | [], _, best, _ => best
  | a :: rest, i, best, bestScore =>
    if elig a ∧ bestScore < a.scoreOrZero then
      bestIdxGo elig rest (i + 1) (some i) a.scoreOrZero
    else
      bestIdxGo elig rest (i + 1) best bestScore

/-- Entry point of the best-index scan (`bestIndex = -1; bestScore = -1`). -/
def bestIdx (elig : Article → Bool) (pool : List Article) : Option ℕ :=
  bestIdxGo elig pool 0 none (-1)

/-- Find the best eligible article and `splice` it out of the pool. -/
def selectBest (elig : Article → Bool) (pool : List Article) :
    Option (Article × List Article) :=
  (bestIdx elig pool).map (fun i => (pool.getD i default, pool.eraseIdx i))

/-- Phase 1 of `scoreAndSortArticlesOnboarding` / `scoreAndSortArticlesAdoption`
(mandatory category rotation): for up to `targetFirstArticles` slots, pick the
best-scored article whose category was not used yet in the first six; stop
early when no slot can be filled. Returns the picks and the remaining pool. -/
def phase1 : ℕ → List Article → Finset ℤ → List Article × List Article
  | 0, pool, _ => ([], pool)
  | slots + 1, pool, used =>
    match selectBest (fun a => decide (a.category_id ∉ used)) pool with
    | none => ([], pool)
    | some (a, rest) =>
      let r := phase1 slots rest (insert a.category_id used)
      (a :: r.1, r.2)

/-- `categoryCountMap.set(k, (categoryCountMap.get(k) || 0) + 1)`. -/
def bumpCount (counts : ℤ → ℕ) (k : ℤ) : ℤ → ℕ :=
  fun k' => if k' = k then counts k + 1 else counts k'

/-- Phase 2 of `scoreAndSortArticlesOnboarding` (and phase 3 of the seeded
variant): balanced category rotation. While the pool is non-empty and fewer
than 100 articles were emitted: `leastUsedCount` is `Math.min` over the
count-map values (`⊤` = `Infinity` for an empty map, which only happens with
an empty pool); the best-scored article whose category count is within
`leastUsedCount + 1` is picked, falling back to index 0 when the scan found
nothing. `fuel` is instantiated with the pool length, which bounds the
iteration count. -/
def rotationLoop (keys : Finset ℤ) :
    ℕ → List Article → (ℤ → ℕ) → ℕ → List Article
  | 0, _, _, _ => []
  | _ + 1, [], _, _ => []
  | fuel + 1, pool@(_ :: _), counts, accLen =>
    if 100 ≤ accLen then []
    else
      let leastUsed : WithTop ℕ := keys.inf (fun c => (counts c : WithTop ℕ))
      let idx :=
        (bestIdx
          (fun a => decide ((counts a.category_id : WithTop ℕ) ≤ leastUsed + 1))
          pool).getD 0
      let a := pool.getD idx default
      a :: rotationLoop keys fuel (pool.eraseIdx idx)
        (bumpCount counts a.category_id) (accLen + 1)

/-- The bounded lookahead of `scoreAndSortArticlesAdoption` phase 2: scan the
first `min(20, pool.length)` articles, with
`adjustedScore = (score || 0) * max(0.7, 1 - sourceCount * 0.05)` and
`bestAdjustedScore = -1` initially. -/
def bestAdjIdxGo (srcCounts : ℤ → ℕ) :
    List Article → ℕ → ℕ → Option ℕ → ℚ → Option ℕ
  | _, 0, _, best, _ => best
  | [], _, _, best, _ => best
  | a :: rest, window + 1, i, best, bestAdj =>
    let adjusted :=
      a.scoreOrZero * max (7/10) (1 - (srcCounts a.source_id : ℚ) * (5/100))
    if bestAdj < adjusted then
      bestAdjIdxGo srcCounts rest window (i + 1) (some i) adjusted
    else
      bestAdjIdxGo srcCounts rest window (i + 1) best bestAdj

/-- Entry point of the lookahead scan (window 20, `bestAdjustedScore = -1`). -/
def bestAdjIdx (srcCounts : ℤ → ℕ) (pool : List Article) : Option ℕ :=
  bestAdjIdxGo srcCounts pool 20 0 none (-1)

/-- Phase 2 of `scoreAndSortArticlesAdoption`: score-based selection with the
diminishing-returns penalty for repeated sources; stops when the scan selects
nothing (`bestIndex` stays `-1`). `fuel` is instantiated with the pool
length. -/
def adoptionLoop : ℕ → List Article → (ℤ → ℕ) → ℕ → List Article
  | 0, _, _, _ => []
  | _ + 1, [], _, _ => []
  | fuel + 1, pool@(_ :: _), srcCounts, accLen =>
    if 100 ≤ accLen then []
    else
      match bestAdjIdx srcCounts pool with
      | none => []
      | some i =>
        let a := pool.getD i default
        a :: adoptionLoop fuel (pool.eraseIdx i)
          (bumpCount srcCounts a.source_id) (accLen + 1)

/-- `scoreAndSortArticlesOnboarding` from `workers/scoring.ts`: score with the
onboarding algorithm (the seen-sets are empty during the scoring map), sort
descending, force one article per category into the first
`min(6, #categories)` slots, then continue with balanced category rotation. -/
def scoreAndSortArticlesOnboarding (now : ℤ) (articles : List Article) :
    List Article :=
  let scoredArticles := articles.map (fun a =>
    { a with score := some (calculateOnboardingScore now a ∅ ∅) })
  let sorted := sortByScoreDesc scoredArticles
  let availableCategories : Finset ℤ := (sorted.map Article.category_id).toFinset
  let targetFirstArticles := min 6 availableCategories.card
  let p := phase1 targetFirstArticles sorted ∅
  let counts : ℤ → ℕ := fun c => (p.1.filter (fun a => a.category_id = c)).length
  p.1 ++ rotationLoop availableCategories p.2.length p.2 counts p.1.length

/-- `scoreAndSortArticlesAdoption` from `workers/scoring.ts`: score with the
adoption algorithm (seen-sets empty during the scoring map), sort descending,
force one article per category into the first `min(6, #categories)` slots,
then continue with the diminishing-returns source selection. -/
def scoreAndSortArticlesAdoption (now : ℤ) (articles : List Article)
    (recencyDecayHours : ℚ) (weights : ScoringWeights) : List Article :=
  let scoredArticles := articles.map (fun a =>
    { a with
      score := some (calculateAdoptionScore now a recencyDecayHours ∅ ∅ weights) })
  let sorted := sortByScoreDesc scoredArticles
  let availableCategories : Finset ℤ := (sorted.map Article.category_id).toFinset
  let targetFirstArticles := min 6 availableCategories.card
  let p := phase1 targetFirstArticles sorted ∅
  let srcCounts : ℤ → ℕ := fun c => (p.1.filter (fun a => a.source_id = c)).length
  p.1 ++ adoptionLoop p.2.length p.2 srcCounts p.1.length

/-- `findIndex` + `splice`: remove the first list element satisfying `p`. -/
def extractFirst (p : Article → Bool) :
    List Article → Option (Article × List Article)
  | [] => none
  | a :: rest =>
    if p a then some (a, rest)
    else (extractFirst p rest).map (fun r => (r.1, a :: r.2))

/-- Phase 1 of `scoreAndSortArticlesOnboardingWithSeed`: pull up to 3 articles
of the seed category (best first, since the pool is sorted), stopping early
when the seed category is exhausted. -/
def seedPhase1 : ℕ → ℤ → List Article → List Article × List Article
  | 0, _, pool => ([], pool)
  | n + 1, seedCat, pool =>
    match extractFirst (fun a => decide (a.category_id = seedCat)) pool with
    | none => ([], pool)
    | some (a, rest) =>
      let r := seedPhase1 n seedCat rest
      (a :: r.1, r.2)

/-- The distinct category ids of a pool in first-occurrence order — the
iteration order of the JavaScript `Set` built from `pool.map(category_id)`. -/
def insertionOrderCatsGo : List Article → List ℤ → List ℤ
  | [], _ => []
  | a :: rest, seen =>
    if a.category_id ∈ seen then insertionOrderCatsGo rest seen
    else a.category_id :: insertionOrderCatsGo rest (a.category_id :: seen)

/-- Entry point for the first-occurrence category order. -/
def insertionOrderCats (pool : List Article) : List ℤ :=
  insertionOrderCatsGo pool []

/-- Phase 2 of `scoreAndSortArticlesOnboardingWithSeed`: walk the remaining
pool's categories in `Set` iteration order, skip the seed category (already
in `usedCategoriesInRotation`), stop once 6 articles were chosen in total,
and pull the first pool article of each category. -/
def seedPhase2 (seedCat : ℤ) :
    List ℤ → List Article → ℕ → List Article × List Article
  | [], pool, _ => ([], pool)
  | c :: cs, pool, len =>
    if c = seedCat then seedPhase2 seedCat cs pool len
    else if 6 ≤ len then ([], pool)
    else
      match extractFirst (fun a => decide (a.category_id = c)) pool with
      | none => seedPhase2 seedCat cs pool len
      | some (a, rest) =>
        let r := seedPhase2 seedCat cs rest (len + 1)
        (a :: r.1, r.2)

/-- `scoreAndSortArticlesOnboardingWithSeed` from `workers/scoring.ts`:
onboarding scores with `×3.0` for the seed category and `×2.0` for the seed
source, sort, then: phase 1 takes up to 3 seed-category articles, phase 2 one
article from each other category up to 6 total, phase 3 is the balanced
category rotation over the categories remaining after phase 1 plus the seed
category. -/
def scoreAndSortArticlesOnboardingWithSeed (now : ℤ) (articles : List Article)
    (seedCategoryId seedSourceId : ℤ) : List Article :=
  let scoredArticles := articles.map (fun a =>
    let base := calculateOnboardingScore now a ∅ ∅
    let s1 := if a.category_id = seedCategoryId then base * 3 else base
    let s2 := if a.source_id = seedSourceId then s1 * 2 else s1
    { a with score := some s2 })
  let sorted := sortByScoreDesc scoredArticles
  let p1 := seedPhase1 3 seedCategoryId sorted
  let availableCategories := insertionOrderCats p1.2
  let p2 := seedPhase2 seedCategoryId availableCategories p1.2 p1.1.length
  let chosen := p1.1 ++ p2.1
  let keys : Finset ℤ :=
    insert seedCategoryId (p1.2.map Article.category_id).toFinset
  let counts : ℤ → ℕ :=
    fun c => (chosen.filter (fun a => a.category_id = c)).length
  chosen ++ rotationLoop keys p2.2.length p2.2 counts chosen.length

/-- The logged-out branch of `handleGetFeed` ranks candidates with
`scoreAndSortArticlesOnboarding` (not with a dedicated logged-out scorer —
`calculateDiverseScore`/`scoreAndSortArticlesDiverse` exist in
`workers/embeddings.ts` but are never called by the feed path). -/
def loggedOutFeedRanked (now : ℤ) (articles : List Article) : List Article :=
  scoreAndSortArticlesOnboarding now articles

/-- From the spec's words (claims C4/§4.2, for comparison with the code):
logged-out raw score `100 * max(0.1, 1 - hoursOld / recencyDecayHours)`,
multiplied by `2.5` when `hoursOld < 2`, with no personalization weights. -/
def specLoggedOutScore (now : ℤ) (article : Article) (recencyDecayHours : ℚ) : ℚ :=
  let h := hoursOld now article
  let recencyMultiplier := max (1/10) (1 - h / recencyDecayHours)
  100 * recencyMultiplier * (if h < 2 then 5/2 else 1)

/-!
## Score normalizer and content score (`ℝ` world)

`normalizeScoresToBellCurve` and `cosineSimilarity` call `Math.sqrt`, so this
part of the code is embedded over `ℝ` (the definitions are `noncomputable`;
concrete evaluations in witnesses go through `Real.sqrt` lemmas). -/

/-- `Math.round x` over `ℝ`. -/
noncomputable def jsRoundR (x : ℝ) : ℝ := ((⌊x + 1/2⌋ : ℤ) : ℝ)

/-- `Math.round(x * 100) / 100` over `ℝ`. -/
noncomputable def jsRound2R (x : ℝ) : ℝ := ((⌊x * 100 + 1/2⌋ : ℤ) : ℝ) / 100

/-- An article as seen by the score normalizer: only the `score` field is
read and only `adjustedScore` is written; all other fields are carried
through unchanged and are irrelevant here (`id` stands in for them). -/
structure RArticle where
  id : ℤ
  score : Option ℝ := none
  adjustedScore : Option ℝ := none

/-- `a.score || 0`. -/
noncomputable def RArticle.rawScore (a : RArticle) : ℝ := a.score.getD 0

/-- `scores.reduce((sum, s) => sum + s, 0) / scores.length`. -/
noncomputable def listMean (l : List ℝ) : ℝ := l.sum / l.length

/-- `scores.reduce((sum, s) => sum + Math.pow(s - mean, 2), 0) /
scores.length` (population variance, as in the source). -/
noncomputable def listPopVar (l : List ℝ) : ℝ :=
  (l.map (fun s => (s - listMean l) ^ 2)).sum / l.length

/-- `Math.sqrt(variance)`: population standard deviation. -/
noncomputable def listStdDev (l : List ℝ) : ℝ := Real.sqrt (listPopVar l)

open Classical in
/-- `normalizeScoresToBellCurve` from `workers/scoring.ts`: compute mean and
population stddev of the raw scores; when the stddev is `0`, set every
`adjustedScore` to `50`; otherwise set
`adjustedScore = max(0, round(50 + 20 * (raw - mean) / stdDev))`. -/
noncomputable def normalizeScoresToBellCurve (articles : List RArticle) :
    List RArticle :=
  if articles.length = 0 then articles
  else
    let scores := articles.map RArticle.rawScore
    let mean := listMean scores
    let stdDev := listStdDev scores
    if stdDev = 0 then
      articles.map (fun a => { a with adjustedScore := some 50 })
    else
      articles.map (fun a =>
        let zScore := (a.rawScore - mean) / stdDev
        let adjustedScore := jsRoundR (50 + 20 * zScore)
        { a with adjustedScore := some (max 0 adjustedScore) })

/-- The `adjustedScore` values of a normalized batch. -/
noncomputable def adjustedScores (l : List RArticle) : List ℝ :=
  l.map (fun a => a.adjustedScore.getD 0)

open Classical in
/-- `cosineSimilarity` from `workers/embeddings.ts`: `0` when the lengths
differ or either norm is `0`, else `dot / (normA * normB)`. -/
noncomputable def cosineSimilarity (a b : List ℝ) : ℝ :=
  if a.length ≠ b.length then 0
  else
    let dotProduct := (List.zipWith (fun x y => x * y) a b).sum
    let normA := Real.sqrt ((a.map (fun x => x * x)).sum)
    let normB := Real.sqrt ((b.map (fun x => x * x)).sum)
    if normA = 0 ∨ normB = 0 then 0
    else dotProduct / (normA * normB)

/-- `calculateDirectContentScore` from `workers/embeddings.ts`: with
`maxBoost = maxPenalty = 10 + strengthMultiplier * 90`, add
`(mean cosine similarity to the liked embeddings) * maxBoost` when the liked
set is non-empty, subtract the disliked analogue when that set is non-empty,
and round to 2 decimals. The two contributions are *not* re-averaged by
count. -/
noncomputable def calculateDirectContentScore (articleEmbedding : List ℝ)
    (likedEmbeddings dislikedEmbeddings : List (List ℝ))
    (strengthMultiplier : ℝ) : ℝ :=
  let maxBoost := 10 + strengthMultiplier * 90
  let maxPenalty := 10 + strengthMultiplier * 90
  let boost : ℝ :=
    if likedEmbeddings.length = 0 then 0
    else
      (likedEmbeddings.map (cosineSimilarity articleEmbedding)).sum
          / likedEmbeddings.length * maxBoost
  let penalty : ℝ :=
    if dislikedEmbeddings.length = 0 then 0
    else
      (dislikedEmbeddings.map (cosineSimilarity articleEmbedding)).sum
          / dislikedEmbeddings.length * maxPenalty
  jsRound2R (boost - penalty)

/-!
## Derived operations and concrete inputs used by the claims -/

/-- Repeated application of `updateWeights` to a list of `(vote, article)`
events (left to right). -/
def applyWeightUpdates (w : ScoringWeights) (events : List (ℤ × Article)) :
    ScoringWeights :=
  events.foldl (fun acc e => updateWeights e.1 e.2 acc) w

/-- A batch has non-constant raw scores when two articles' raw scores
differ. -/
def rawNonConstant (l : List RArticle) : Prop :=
  ∃ a ∈ l, ∃ b ∈ l, a.rawScore ≠ b.rawScore

/-- Every weight stored in the maps is positive — the invariant the weight
updater maintains (stored weights live in `[0.1, 2.0]`, claim C1). -/
def WeightsPositive (w : ScoringWeights) : Prop :=
  (∀ k q, w.categories k = some q → 0 < q) ∧
  (∀ k q, w.sources k = some q → 0 < q)

/-- The ideal (pre-rounding, pre-clamping) adjusted score
`50 + 20 * zScore` that `normalizeScoresToBellCurve` rounds. -/
noncomputable def idealAdjusted (l : List RArticle) (a : RArticle) : ℝ :=
  50 + 20 * ((a.rawScore - listMean (l.map RArticle.rawScore))
    / listStdDev (l.map RArticle.rawScore))

/-- From the spec's words (claim C6, for comparison with the code): the
normalized batch has sample mean `50` up to rounding error and — when the raw
scores are not all equal — sample standard deviation `20` up to rounding
error. Rounding to integers moves each value by at most `1/2`, so "up to
rounding error" is formalized as a `1/2` tolerance. -/
def specBellCurveClaim (l : List RArticle) : Prop :=
  |listMean (adjustedScores (normalizeScoresToBellCurve l)) - 50| ≤ 1/2 ∧
  (rawNonConstant l →
    |listStdDev (adjustedScores (normalizeScoresToBellCurve l)) - 20| ≤ 1/2)

/-- Article voted on in the C1/C3 witnesses. -/
def artA : Article := { id := 1, category_id := 3, source_id := 4, published_at := 0 }

/-- Second article (distinct id) for the C3 witness. -/
def artB : Article := { id := 2, category_id := 3, source_id := 5, published_at := 0 }

/-- Article used by the C2 counterexample. -/
def artC : Article := { id := 10, category_id := 5, source_id := 7, published_at := 0 }

/-- Article saved in the C10 witness. -/
def artD : Article := { id := 99, category_id := 5, source_id := 7, published_at := 0 }

/-- Stored state for the C10 witness: one unrelated vote and a stored
category-5 weight of `1.5`. -/
def stateC10 : DBState :=
  { votes := [(artA, 1)]
    weights :=
      { categories := fun c => if c = 5 then some (3/2) else none
        sources := WeightMap.empty }
    saved := [] }

/-- C8's scenario article: published at 00:30:00 (so the publish-minute
perturbation is 0), `id % 1000 = 500` (so the id perturbation is 0), from a
source that is not on the high-volume list. -/
def artScenario : Article :=
  { id := 500, category_id := 3, source_id := 2, published_at := 1800000 }

/-- C8's `now`: exactly one hour after `artScenario.published_at`. -/
def nowScenario : ℤ := 5400000

/-- C4's candidate article, published one hour before `nowFresh`. -/
def artFresh : Article := { id := 1, category_id := 1, source_id := 1, published_at := 0 }

/-- C4's request time: one hour after `artFresh.published_at`. -/
def nowFresh : ℤ := 3600000

/-- C5's counterexample pool: seven fresh articles over six distinct
categories `{1, …, 6}`, two of them (ids 1, 2) in the seed category 1. -/
def seedPool : List Article :=
  [ { id := 1, category_id := 1, source_id := 1, published_at := 0 },
    { id := 2, category_id := 1, source_id := 2, published_at := 0 },
    { id := 3, category_id := 2, source_id := 3, published_at := 0 },
    { id := 4, category_id := 3, source_id := 4, published_at := 0 },
    { id := 5, category_id := 4, source_id := 5, published_at := 0 },
    { id := 6, category_id := 5, source_id := 6, published_at := 0 },
    { id := 7, category_id := 6, source_id := 7, published_at := 0 } ]

/-- C6's counterexample batch: raw scores `[0, 10, …, 10]` (ten articles).
Mean 9, population variance 9, stddev 3; the low article's z-score is `-3`,
so its adjusted score `round(50 - 60) = -10` is clamped to 0. -/
def bellPool : List RArticle :=
  [ { id := 1, score := some 0 },
    { id := 2, score := some 10 }, { id := 3, score := some 10 },
    { id := 4, score := some 10 }, { id := 5, score := some 10 },
    { id := 6, score := some 10 }, { id := 7, score := some 10 },
    { id := 8, score := some 10 }, { id := 9, score := some 10 },
    { id := 10, score := some 10 } ]

/-- C6's witness batch: raw scores `[30, 70]` (mean 50, stddev 20, no
clamping). -/
def bellPoolOk : List RArticle :=
  [ { id := 1, score := some 30 }, { id := 2, score := some 70 } ]

/-- C7's witness batch: two articles with identical raw scores. -/
def bellPoolConst : List RArticle :=
  [ { id := 1, score := some 5 }, { id := 2, score := some 5 } ]

/-- C9's candidate embedding. -/
noncomputable def embCand : List ℝ := [1, 0]

/-- C9's liked embedding: unit vector with cosine similarity `0.8` to
`embCand`. -/
noncomputable def embLiked : List ℝ := [4/5, 3/5]

/-- C9's counterexample liked set: the candidate itself. -/
noncomputable def embSame : List ℝ := [1, 0]

/-- C9's counterexample disliked set: the opposite of the candidate. -/
noncomputable def embOpp : List ℝ := [-1, 0]

/-!
## Weight updater lemmas (claims C1, C2, C3, C10) -/

lemma clamp_mem (x : ℚ) : 1/10 ≤ clamp x (1/10) 2 ∧ clamp x (1/10) 2 ≤ 2 :=
  ⟨le_min (le_max_right _ _) (by norm_num), min_le_right _ _⟩

lemma WeightMap.set_self (m : WeightMap) (k : ℤ) (w : ℚ) :
    (m.set k w) k = some w := by
  simp [WeightMap.set]

lemma WeightMap.set_other (m : WeightMap) (k : ℤ) (w : ℚ) {k' : ℤ}
    (h : k' ≠ k) : (m.set k w) k' = m k' := by
  simp [WeightMap.set, h]

lemma updateWeights_categories_self (v : ℤ) (a : Article) (w : ScoringWeights) :
    (updateWeights v a w).categories a.category_id =
      some (clamp (w.categories.get a.category_id +
        if v = 1 then 1/10 else -(1/10)) (1/10) 2) := by
  simp [updateWeights, WeightMap.set_self]

lemma updateWeights_sources_self (v : ℤ) (a : Article) (w : ScoringWeights) :
    (updateWeights v a w).sources a.source_id =
      some (clamp (w.sources.get a.source_id +
        if v = 1 then 1/10 else -(1/10)) (1/10) 2) := by
  simp [updateWeights, WeightMap.set_self]

lemma updateWeights_categories_other (v : ℤ) (a : Article) (w : ScoringWeights)
    {c : ℤ} (h : c ≠ a.category_id) :
    (updateWeights v a w).categories c = w.categories c := by
  simp [updateWeights, WeightMap.set_other _ _ _ h]

lemma updateWeights_sources_other (v : ℤ) (a : Article) (w : ScoringWeights)
    {c : ℤ} (h : c ≠ a.source_id) :
    (updateWeights v a w).sources c = w.sources c := by
  simp [updateWeights, WeightMap.set_other _ _ _ h]

lemma updateWeights_preserves_cat (v : ℤ) (a : Article) (w : ScoringWeights)
    {c : ℤ} {q : ℚ} (h : w.categories c = some q) (h1 : 1/10 ≤ q) (h2 : q ≤ 2) :
    ∃ q', (updateWeights v a w).categories c = some q' ∧ 1/10 ≤ q' ∧ q' ≤ 2 := by
  by_cases hc : c = a.category_id
  · subst hc
    exact ⟨_, updateWeights_categories_self v a w, (clamp_mem _).1, (clamp_mem _).2⟩
  · exact ⟨q, by rw [updateWeights_categories_other v a w hc]; exact h, h1, h2⟩

lemma updateWeights_preserves_src (v : ℤ) (a : Article) (w : ScoringWeights)
    {c : ℤ} {q : ℚ} (h : w.sources c = some q) (h1 : 1/10 ≤ q) (h2 : q ≤ 2) :
    ∃ q', (updateWeights v a w).sources c = some q' ∧ 1/10 ≤ q' ∧ q' ≤ 2 := by
  by_cases hc : c = a.source_id
  · subst hc
    exact ⟨_, updateWeights_sources_self v a w, (clamp_mem _).1, (clamp_mem _).2⟩
  · exact ⟨q, by rw [updateWeights_sources_other v a w hc]; exact h, h1, h2⟩

lemma applyWeightUpdates_preserves_cat (events : List (ℤ × Article)) :
    ∀ (w : ScoringWeights) {c : ℤ} {q : ℚ}, w.categories c = some q →
      1/10 ≤ q → q ≤ 2 →
      ∃ q', (applyWeightUpdates w events).categories c = some q' ∧
        1/10 ≤ q' ∧ q' ≤ 2 := by
  induction events with
  | nil => exact fun w _ _ h h1 h2 => ⟨_, h, h1, h2⟩
  | cons e evs ih =>
    intro w c q h h1 h2
    obtain ⟨q', h', h1', h2'⟩ := updateWeights_preserves_cat e.1 e.2 w h h1 h2
    exact ih _ h' h1' h2'

lemma applyWeightUpdates_preserves_src (events : List (ℤ × Article)) :
    ∀ (w : ScoringWeights) {c : ℤ} {q : ℚ}, w.sources c = some q →
      1/10 ≤ q → q ≤ 2 →
      ∃ q', (applyWeightUpdates w events).sources c = some q' ∧
        1/10 ≤ q' ∧ q' ≤ 2 := by
  induction events with
  | nil => exact fun w _ _ h h1 h2 => ⟨_, h, h1, h2⟩
  | cons e evs ih =>
    intro w c q h h1 h2
    obtain ⟨q', h', h1', h2'⟩ := updateWeights_preserves_src e.1 e.2 w h h1 h2
    exact ih _ h' h1' h2'

lemma applyWeightUpdates_cat_range (events : List (ℤ × Article)) :
    ∀ (w : ScoringWeights) (c : ℤ),
      c ∈ events.map (fun e => e.2.category_id) →
      ∃ q, (applyWeightUpdates w events).categories c = some q ∧
        1/10 ≤ q ∧ q ≤ 2 := by
  induction events with
  | nil => simp
  | cons e evs ih =>
    intro w c hc
    rcases List.mem_cons.mp hc with hc | hc
    · subst hc
      have hstep := updateWeights_categories_self e.1 e.2 w
      exact applyWeightUpdates_preserves_cat evs _ hstep
        (clamp_mem _).1 (clamp_mem _).2
    · exact ih _ c hc

lemma applyWeightUpdates_src_range (events : List (ℤ × Article)) :
    ∀ (w : ScoringWeights) (c : ℤ),
      c ∈ events.map (fun e => e.2.source_id) →
      ∃ q, (applyWeightUpdates w events).sources c = some q ∧
        1/10 ≤ q ∧ q ≤ 2 := by
  induction events with
  | nil => simp
  | cons e evs ih =>
    intro w c hc
    rcases List.mem_cons.mp hc with hc | hc
    · subst hc
      have hstep := updateWeights_sources_self e.1 e.2 w
      exact applyWeightUpdates_preserves_src evs _ hstep
        (clamp_mem _).1 (clamp_mem _).2
    · exact ih _ c hc

/-- C1: for every input weights map, article and vote value, the category and
source entries written by `updateWeights` lie in `[0.1, 2.0]`, and any
repeated application of `updateWeights` leaves every entry it ever wrote in
`[0.1, 2.0]`, even when the corresponding input entry is out of range. -/
theorem C1_updateWeights_clamped :
    (∀ (vote : ℤ) (a : Article) (w : ScoringWeights),
      (∃ q, (updateWeights vote a w).categories a.category_id = some q ∧
        1/10 ≤ q ∧ q ≤ 2) ∧
      (∃ q, (updateWeights vote a w).sources a.source_id = some q ∧
        1/10 ≤ q ∧ q ≤ 2)) ∧
    (∀ (events : List (ℤ × Article)) (w : ScoringWeights) (c : ℤ),
      c ∈ events.map (fun e => e.2.category_id) →
      ∃ q, (applyWeightUpdates w events).categories c = some q ∧
        1/10 ≤ q ∧ q ≤ 2) ∧
    (∀ (events : List (ℤ × Article)) (w : ScoringWeights) (c : ℤ),
      c ∈ events.map (fun e => e.2.source_id) →
      ∃ q, (applyWeightUpdates w events).sources c = some q ∧
        1/10 ≤ q ∧ q ≤ 2) := by
  refine ⟨fun vote a w => ⟨?_, ?_⟩,
    fun events w c hc => applyWeightUpdates_cat_range events w c hc,
    fun events w c hc => applyWeightUpdates_src_range events w c hc⟩
  · exact ⟨_, updateWeights_categories_self vote a w,
      (clamp_mem _).1, (clamp_mem _).2⟩
  · exact ⟨_, updateWeights_sources_self vote a w,
      (clamp_mem _).1, (clamp_mem _).2⟩

/-- Witness for C1: one downvote applied to a weights map whose stored
entries (`5` and `-3`) are far out of range still yields in-range entries. -/
theorem C1_updateWeights_clamped_witness :
    ∃ q, (applyWeightUpdates ⟨fun _ => some 5, fun _ => some (-3)⟩
      [((-1 : ℤ), artA)]).categories 3 = some q ∧ 1/10 ≤ q ∧ q ≤ 2 :=
  C1_updateWeights_clamped.2.1 [((-1 : ℤ), artA)] _ 3 (by decide)

unseal Rat.inv Rat.mul Rat.add Rat.sub in
/-- C2 counterexample: recording an unvote (value 0) for `artC` from the
default state *changes* the effective category weight of `artC`'s category
from `1.0` to `0.9` — the claim that all weights are left unchanged is false
on the code. -/
theorem C2_counterexample :
    (handleVote 0 artC DBState.initial).weights.categories.get 5 ≠
      DBState.initial.weights.categories.get 5 := by decide

/-- C2 (amended): recording an unvote (value 0) deletes the vote row but
updates weights exactly like a downvote: the voted article's category and
source weights receive the `-0.1` clamped adjustment, and all other weights
are unchanged. -/
theorem C2_unvote_acts_as_downvote (s : DBState) (a : Article) :
    ((handleVote 0 a s).weights = (handleVote (-1) a s).weights) ∧
    (∀ c, c ≠ a.category_id →
      (handleVote 0 a s).weights.categories c = s.weights.categories c) ∧
    (∀ c, c ≠ a.source_id →
      (handleVote 0 a s).weights.sources c = s.weights.sources c) ∧
    ((handleVote 0 a s).weights.categories a.category_id =
      some (clamp (s.weights.categories.get a.category_id - 1/10) (1/10) 2)) ∧
    ((handleVote 0 a s).weights.sources a.source_id =
      some (clamp (s.weights.sources.get a.source_id - 1/10) (1/10) 2)) := by
  refine ⟨rfl, fun c hc => ?_, fun c hc => ?_, ?_, ?_⟩
  · exact updateWeights_categories_other 0 a s.weights hc
  · exact updateWeights_sources_other 0 a s.weights hc
  · rw [show (handleVote 0 a s).weights = updateWeights 0 a s.weights from rfl,
      updateWeights_categories_self]
    norm_num [sub_eq_add_neg]
  · rw [show (handleVote 0 a s).weights = updateWeights 0 a s.weights from rfl,
      updateWeights_sources_self]
    norm_num [sub_eq_add_neg]

/-- Witness for C2 (amended): at the default state and article `artC`,
the weight of the untouched category `4` is unchanged by the unvote. -/
theorem C2_unvote_acts_as_downvote_witness :
    (handleVote 0 artC DBState.initial).weights.categories 4 =
      DBState.initial.weights.categories 4 :=
  (C2_unvote_acts_as_downvote DBState.initial artC).2.1 4 (by decide)

lemma applyVoteEvents_votes (events : List (Article × ℤ)) :
    ∀ (s : DBState),
      (∀ e ∈ events, ∀ r ∈ s.votes, r.1.id ≠ e.1.id) →
      ((events.map (fun e => e.1.id)).Nodup) →
      (∀ e ∈ events, e.2 ≠ 0) →
      (applyVoteEvents s events).votes = s.votes ++ events := by
  induction events with
  | nil => intro s _ _ _; simp [applyVoteEvents]
  | cons e evs ih =>
    intro s hdisj hids hnz
    have hstep : applyVoteEvents s (e :: evs) =
        applyVoteEvents (handleVote e.2 e.1 s) evs := rfl
    have hnz0 : e.2 ≠ 0 := hnz e (List.mem_cons_self e evs)
    have hfilter : s.votes.filter (fun r => r.1.id ≠ e.1.id) = s.votes :=
      List.filter_eq_self.mpr (fun r hr => by
        simpa using hdisj e (List.mem_cons_self e evs) r hr)
    have hvotes : (handleVote e.2 e.1 s).votes = s.votes ++ [e] := by
      simp only [handleVote, if_neg hnz0, hfilter]
    have hids2 := hids
    rw [List.map_cons, List.nodup_cons] at hids2
    have hid_head : ∀ e' ∈ evs, e'.1.id ≠ e.1.id := by
      intro e' he' hcontra
      exact hids2.1 (by rw [← hcontra]; exact List.mem_map.mpr ⟨e', he', rfl⟩)
    have hdisj' : ∀ e' ∈ evs, ∀ r ∈ (handleVote e.2 e.1 s).votes,
        r.1.id ≠ e'.1.id := by
      intro e' he' r hr
      rw [hvotes] at hr
      rcases List.mem_append.mp hr with hr | hr
      · exact hdisj e' (List.mem_cons_of_mem _ he') r hr
      · have : r = e := by simpa using hr
        subst this
        exact fun hcontra => hid_head e' he' hcontra.symm
    have hids' : (evs.map (fun e => e.1.id)).Nodup := hids2.2
    have hnz' : ∀ e' ∈ evs, e'.2 ≠ 0 :=
      fun e' he' => hnz e' (List.mem_cons_of_mem _ he')
    rw [hstep, ih _ hdisj' hids' hnz', hvotes, List.append_assoc,
      List.singleton_append]

lemma applyVoteEvents_weights (events : List (Article × ℤ)) :
    ∀ (s : DBState), (applyVoteEvents s events).weights =
      events.foldl (fun w e => updateWeights e.2 e.1 w) s.weights := by
  induction events with
  | nil => intro s; rfl
  | cons e evs ih => intro s; exact ih (handleVote e.2 e.1 s)

unseal Rat.inv Rat.mul Rat.add Rat.sub in
/-- C3 counterexample: a user who upvotes the same article twice. The
incremental path applies `updateWeights` once per `recordVote` event, leaving
the category weight at `1.2`; the backfill replays the deduplicated `votes`
table (one row per article, and unvoted rows are deleted), producing `1.1` —
the claimed equivalence is false on the code. -/
theorem C3_counterexample :
    (handleBackfillWeights
        (applyVoteEvents DBState.initial [(artA, 1), (artA, 1)])).weights.categories 3 ≠
      (applyVoteEvents DBState.initial [(artA, 1), (artA, 1)]).weights.categories 3 := by
  decide

/-- C3 (amended): the backfill equals the incremental path whenever the vote
history contains no re-vote and no unvote: for events with pairwise-distinct
article ids and nonzero values, replaying the `votes` table from default
weights yields exactly the weights of the incremental per-event path. -/
theorem C3_backfill_replay_equiv (events : List (Article × ℤ))
    (hids : (events.map (fun e => e.1.id)).Nodup)
    (hnz : ∀ e ∈ events, e.2 ≠ 0) :
    (handleBackfillWeights (applyVoteEvents DBState.initial events)).weights =
      (applyVoteEvents DBState.initial events).weights := by
  have hv : (applyVoteEvents DBState.initial events).votes = events := by
    simpa [DBState.initial] using
      applyVoteEvents_votes events DBState.initial (by simp [DBState.initial]) hids hnz
  by_cases he : events = []
  · subst he
    rfl
  · have hne : (applyVoteEvents DBState.initial events).votes ≠ [] := by
      rw [hv]; exact he
    rw [handleBackfillWeights, if_neg hne, applyVoteEvents_weights, hv]
    rfl

/-- Witness for C3 (amended): two votes on distinct articles replay to the
same weights as the incremental path. -/
theorem C3_backfill_replay_equiv_witness :
    (handleBackfillWeights
        (applyVoteEvents DBState.initial [(artA, 1), (artB, -1)])).weights =
      (applyVoteEvents DBState.initial [(artA, 1), (artB, -1)]).weights :=
  C3_backfill_replay_equiv [(artA, 1), (artB, -1)] (by decide) (by decide)

/-- C10: saving an article the user has not voted on appends a `+1` vote row
(so the vote count the phase selector compares with the threshold 10 grows by
one, and the save can trigger the onboarding→adoption transition), and raises
the article's category and source weights multiplicatively — `1.1` when
absent, else `min(weight * 1.1, 2.0)` — which differs from the additive
`clamp(weight + 0.1)` vote rule whenever the stored weight is not `1`. -/
theorem C10_save_counts_as_vote_and_multiplies_weights
    (s : DBState) (a : Article)
    (hnv : ∀ r ∈ s.votes, r.1.id ≠ a.id) :
    ((handleSaveArticle a s).votes = s.votes ++ [(a, 1)]) ∧
    ((handleSaveArticle a s).votes.length = s.votes.length + 1) ∧
    (selectPhase false (handleSaveArticle a s).votes.length = Phase.adoption ↔
      10 ≤ s.votes.length + 1) ∧
    ((handleSaveArticle a s).weights.categories a.category_id =
      some (match s.weights.categories a.category_id with
        | none => 11/10
        | some w => min (w * (11/10)) 2)) ∧
    ((handleSaveArticle a s).weights.sources a.source_id =
      some (match s.weights.sources a.source_id with
        | none => 11/10
        | some w => min (w * (11/10)) 2)) ∧
    (∀ w : ℚ, s.weights.categories a.category_id = some w → 0 ≤ w → w ≠ 1 →
      w * (11/10) < 2 →
      (handleSaveArticle a s).weights.categories a.category_id ≠
        some (clamp (w + 1/10) (1/10) 2)) := by
  have hfind : (s.votes.find? (fun r => r.1.id = a.id)) = none :=
    List.find?_eq_none.mpr (fun r hr => by simpa using hnv r hr)
  have hvotes : (handleSaveArticle a s).votes = s.votes ++ [(a, 1)] := by
    simp [handleSaveArticle, hfind]
  have hlen : (handleSaveArticle a s).votes.length = s.votes.length + 1 := by
    simp [hvotes]
  have hcat : (handleSaveArticle a s).weights.categories a.category_id =
      some (match s.weights.categories a.category_id with
        | none => 11/10
        | some w => min (w * (11/10)) 2) := by
    cases h : s.weights.categories a.category_id with
    | none => simp [handleSaveArticle, WeightMap.set_self, h]
    | some w => simp [handleSaveArticle, WeightMap.set_self, h]
  refine ⟨hvotes, hlen, ?_, hcat, ?_, ?_⟩
  · rw [hlen]
    constructor
    · intro h
      by_contra hlt
      push_neg at hlt
      simp [selectPhase, hlt] at h
    · intro h
      have hnlt : ¬(s.votes.length + 1 < 10) := by omega
      simp [selectPhase, hnlt]
  · cases h : s.weights.sources a.source_id with
    | none => simp [handleSaveArticle, WeightMap.set_self, h]
    | some w => simp [handleSaveArticle, WeightMap.set_self, h]
  · intro w hw h0 h1 hlt heq
    have hval : (handleSaveArticle a s).weights.categories a.category_id =
        some (min (w * (11/10)) 2) := by
      simp [handleSaveArticle, WeightMap.set_self, hw]
    rw [hval] at heq
    have heq2 : min (w * (11/10)) 2 = clamp (w + 1/10) (1/10) 2 := by
      injection heq
    rw [min_eq_left hlt.le] at heq2
    have hclamp : clamp (w + 1/10) (1/10) 2 = w + 1/10 := by
      unfold clamp
      rw [max_eq_left (by linarith), min_eq_left (by linarith)]
    rw [hclamp] at heq2
    apply h1
    linarith

/-- Witness for C10: saving an unvoted article from a state holding one other
vote and a stored category weight `1.5`. -/
theorem C10_save_counts_as_vote_and_multiplies_weights_witness :
    (handleSaveArticle artD stateC10).votes.length = stateC10.votes.length + 1 :=
  (C10_save_counts_as_vote_and_multiplies_weights stateC10 artD (by decide)).2.1

unseal Rat.inv Rat.mul Rat.add Rat.sub in
/-- C8 counterexample: for the claimed scenario (article one hour old,
adoption phase, `recencyDecayHours = 24`, default weights, publish-minute and
id perturbations both zero), the adoption-phase raw score is *not* within 1
of the claimed `100 * max(0.1, 1 - 1/24) * 1.8 = 172.5`: the scoring map of
`scoreAndSortArticlesAdoption` runs with empty seen-sets, so the `×1.5`
category and `×1.3` source diversity bonuses always apply. -/
theorem C8_counterexample :
    ¬ |calculateAdoptionScore nowScenario artScenario 24 ∅ ∅
        ScoringWeights.default - 100 * max (1/10) (1 - 1/24) * (9/5)| ≤ 1 := by
  decide

unseal Rat.inv Rat.mul Rat.add Rat.sub in
/-- C8 (amended): in the claimed scenario the raw score before the tie-break
perturbation is `1.95` times the claimed value — `round2(1.95 * 172.5) =
336.38` — because the empty seen-sets add the `×1.5 × 1.3` diversity bonuses;
the claimed `172.5` is what `calculateAdoptionScore` yields when the
article's category and source are already in the seen-sets. -/
theorem C8_adoption_scenario_score :
    calculateAdoptionScore nowScenario artScenario 24 ∅ ∅ ScoringWeights.default
      = jsRound2 ((39/20) * (100 * max (1/10) (1 - 1/24) * (9/5))) ∧
    calculateAdoptionScore nowScenario artScenario 24 ∅ ∅ ScoringWeights.default
      = 16819/50 ∧
    calculateAdoptionScore nowScenario artScenario 24 {2} {3}
        ScoringWeights.default
      = 100 * max (1/10) (1 - 1/24) * (9/5) ∧
    (100 : ℚ) * max (1/10) (1 - 1/24) * (9/5) = 345/2 := by
  refine ⟨by decide, by decide, by decide, by decide⟩

/-!
## Reranker lemmas (claims C4, C5) -/

lemma perm_get_cons_eraseIdx {α : Type _} :
    ∀ (l : List α) (i : ℕ) (h : i < l.length),
      l.Perm (l.get ⟨i, h⟩ :: l.eraseIdx i) := by
  intro l
  induction l with
  | nil => intro i h; simp at h
  | cons a rest ih =>
    intro i h
    cases i with
    | zero => simp [List.eraseIdx]
    | succ i =>
      have hi : i < rest.length := Nat.lt_of_succ_lt_succ (by simpa using h)
      have h1 := (ih i hi).cons a
      have h2 := List.Perm.swap (rest.get ⟨i, hi⟩) a (rest.eraseIdx i)
      simpa [List.eraseIdx] using h1.trans h2

lemma bestIdxGo_spec (elig : Article → Bool) :
    ∀ (l : List Article) (i : ℕ) (best : Option ℕ) (b : ℚ) (k : ℕ),
      bestIdxGo elig l i best b = some k →
      best = some k ∨ ∃ j : Fin l.length, k = i + j.1 ∧ elig (l.get j) = true := by
  intro l
  induction l with
  | nil => intro i best b k h; exact Or.inl h
  | cons a rest ih =>
    intro i best b k h
    rw [bestIdxGo] at h
    by_cases hc : elig a ∧ b < a.scoreOrZero
    · rw [if_pos hc] at h
      rcases ih (i + 1) (some i) a.scoreOrZero k h with h' | ⟨j, hj, he⟩
      · right
        refine ⟨⟨0, by simp⟩, ?_, ?_⟩
        · simpa using (Option.some.inj h').symm
        · simpa using hc.1
      · right
        refine ⟨⟨j.1 + 1, by simpa using Nat.succ_lt_succ j.2⟩, ?_, by simpa using he⟩
        show k = i + (j.1 + 1)
        omega
    · rw [if_neg hc] at h
      rcases ih (i + 1) best b k h with h' | ⟨j, hj, he⟩
      · exact Or.inl h'
      · right
        refine ⟨⟨j.1 + 1, by simpa using Nat.succ_lt_succ j.2⟩, ?_, by simpa using he⟩
        show k = i + (j.1 + 1)
        omega

lemma bestIdx_valid (elig : Article → Bool) (pool : List Article) (k : ℕ)
    (h : bestIdx elig pool = some k) :
    ∃ hk : k < pool.length, elig (pool.get ⟨k, hk⟩) = true := by
  rcases bestIdxGo_spec elig pool 0 none (-1) k h with h' | ⟨j, hj, he⟩
  · exact absurd h' (by simp)
  · obtain ⟨jv, jh⟩ := j
    have hk : k = jv := by simpa using hj
    subst hk
    exact ⟨jh, he⟩

lemma bestIdxGo_stays_some (elig : Article → Bool) :
    ∀ (l : List Article) (i j : ℕ) (b : ℚ),
      (bestIdxGo elig l i (some j) b).isSome := by
  intro l
  induction l with
  | nil => intro i j b; rfl
  | cons a rest ih =>
    intro i j b
    rw [bestIdxGo]
    by_cases hc : elig a ∧ b < a.scoreOrZero
    · rw [if_pos hc]; exact ih ..
    · rw [if_neg hc]; exact ih ..

lemma bestIdxGo_isSome_of_exists (elig : Article → Bool) :
    ∀ (l : List Article) (i : ℕ) (best : Option ℕ) (b : ℚ),
      (∃ a ∈ l, elig a = true ∧ b < a.scoreOrZero) →
      (bestIdxGo elig l i best b).isSome := by
  intro l
  induction l with
  | nil =>
    intro _ _ _ h
    rcases h with ⟨a, ha, _⟩
    simp at ha
  | cons x rest ih =>
    intro i best b h
    rw [bestIdxGo]
    by_cases hc : elig x ∧ b < x.scoreOrZero
    · rw [if_pos hc]; exact bestIdxGo_stays_some ..
    · rw [if_neg hc]
      rcases h with ⟨a, ha, he, hb⟩
      rcases List.mem_cons.mp ha with rfl | ha'
      · exact absurd ⟨he, hb⟩ hc
      · exact ih (i + 1) best b ⟨a, ha', he, hb⟩

lemma selectBest_spec (elig : Article → Bool) (pool : List Article)
    (a : Article) (rest : List Article)
    (h : selectBest elig pool = some (a, rest)) :
    elig a = true ∧ pool.Perm (a :: rest) := by
  unfold selectBest at h
  cases hb : bestIdx elig pool with
  | none => rw [hb] at h; simp at h
  | some i =>
    rw [hb] at h
    simp only [Option.map_some'] at h
    obtain ⟨hk, he⟩ := bestIdx_valid elig pool i hb
    have hget : pool.getD i default = pool.get ⟨i, hk⟩ := by
      rw [List.getD_eq_getElem pool default hk, List.get_eq_getElem]
    have ha : pool.getD i default = a := congrArg Prod.fst (Option.some.inj h)
    have hrest : pool.eraseIdx i = rest := congrArg Prod.snd (Option.some.inj h)
    constructor
    · rw [← ha, hget]; exact he
    · rw [← ha, ← hrest, hget]
      exact perm_get_cons_eraseIdx pool i hk

lemma selectBest_isSome (elig : Article → Bool) (pool : List Article)
    (h : ∃ a ∈ pool, elig a = true ∧ (-1 : ℚ) < a.scoreOrZero) :
    (selectBest elig pool).isSome := by
  have hgo := bestIdxGo_isSome_of_exists elig pool 0 none (-1) h
  unfold selectBest
  cases hb : bestIdx elig pool with
  | none =>
    unfold bestIdx at hb
    rw [hb] at hgo
    simp at hgo
  | some i => rfl

lemma phase1_perm :
    ∀ (slots : ℕ) (pool : List Article) (used : Finset ℤ),
      pool.Perm ((phase1 slots pool used).1 ++ (phase1 slots pool used).2) := by
  intro slots
  induction slots with
  | zero => intro pool used; simp [phase1]
  | succ s ih =>
    intro pool used
    rw [phase1]
    cases hsel : selectBest (fun a => decide (a.category_id ∉ used)) pool with
    | none => simp
    | some prest =>
      obtain ⟨a, rest⟩ := prest
      obtain ⟨he, hperm⟩ := selectBest_spec _ _ _ _ hsel
      simpa using hperm.trans ((ih rest (insert a.category_id used)).cons a)

lemma phase1_spec :
    ∀ (slots : ℕ) (pool : List Article) (used : Finset ℤ),
      (∀ a ∈ pool, (-1 : ℚ) < a.scoreOrZero) →
      slots ≤ ((pool.map Article.category_id).toFinset \ used).card →
      (phase1 slots pool used).1.length = slots ∧
      ((phase1 slots pool used).1.map Article.category_id).Nodup ∧
      (∀ a ∈ (phase1 slots pool used).1, a.category_id ∉ used) := by
  intro slots
  induction slots with
  | zero =>
    intro pool used _ _
    exact ⟨rfl, by simp [phase1], by simp [phase1]⟩
  | succ s ih =>
    intro pool used hpos hcard
    have hex : ∃ a ∈ pool, (fun a => decide (a.category_id ∉ used)) a = true ∧
        (-1 : ℚ) < a.scoreOrZero := by
      have hpos' : 0 < ((pool.map Article.category_id).toFinset \ used).card :=
        lt_of_lt_of_le (Nat.succ_pos s) hcard
      obtain ⟨c, hc⟩ := Finset.card_pos.mp hpos'
      rw [Finset.mem_sdiff] at hc
      obtain ⟨hc1, hc2⟩ := hc
      rw [List.mem_toFinset] at hc1
      obtain ⟨a, ha, hac⟩ := List.mem_map.mp hc1
      refine ⟨a, ha, ?_, hpos a ha⟩
      simp [hac, hc2]
    have hsome := selectBest_isSome _ pool hex
    cases hsel : selectBest (fun a => decide (a.category_id ∉ used)) pool with
    | none => rw [hsel] at hsome; simp at hsome
    | some prest =>
      obtain ⟨a, rest⟩ := prest
      obtain ⟨he, hperm⟩ := selectBest_spec _ _ _ _ hsel
      have hanotin : a.category_id ∉ used := by simpa using he
      have hcats : (pool.map Article.category_id).toFinset =
          insert a.category_id (rest.map Article.category_id).toFinset := by
        have h1 := List.toFinset_eq_of_perm _ _ (hperm.map Article.category_id)
        simpa using h1
      have hcard' : s ≤ ((rest.map Article.category_id).toFinset \
          insert a.category_id used).card := by
        have hsub : (pool.map Article.category_id).toFinset \ used ⊆
            insert a.category_id ((rest.map Article.category_id).toFinset \
              insert a.category_id used) := by
          intro x hx
          rw [Finset.mem_sdiff] at hx
          by_cases hxa : x = a.category_id
          · subst hxa; exact Finset.mem_insert_self _ _
          · have hx1 : x ∈ (rest.map Article.category_id).toFinset := by
              have := hx.1
              rw [hcats] at this
              rcases Finset.mem_insert.mp this with h | h
              · exact absurd h hxa
              · exact h
            refine Finset.mem_insert.mpr (Or.inr (Finset.mem_sdiff.mpr ⟨hx1, ?_⟩))
            intro hxin
            rcases Finset.mem_insert.mp hxin with h | h
            · exact hxa h
            · exact hx.2 h
        have hle := Finset.card_le_card hsub
        have hinsle := Finset.card_insert_le a.category_id
          ((rest.map Article.category_id).toFinset \ insert a.category_id used)
        omega
      have hpos' : ∀ x ∈ rest, (-1 : ℚ) < x.scoreOrZero :=
        fun x hx => hpos x (hperm.mem_iff.mpr (List.mem_cons_of_mem _ hx))
      obtain ⟨ihlen, ihnodup, ihnotin⟩ :=
        ih rest (insert a.category_id used) hpos' hcard'
      rw [phase1]
      rw [hsel]
      refine ⟨by simpa using ihlen, ?_, ?_⟩
      · rw [List.map_cons, List.nodup_cons]
        refine ⟨?_, ihnodup⟩
        intro hmem
        obtain ⟨x, hx, hxc⟩ := List.mem_map.mp hmem
        exact (ihnotin x hx) (hxc ▸ Finset.mem_insert_self _ _)
      · intro x hx
        rcases List.mem_cons.mp hx with rfl | hx'
        · exact hanotin
        · exact fun hxin => (ihnotin x hx') (Finset.mem_insert_of_mem hxin)

lemma jsRound2_nonneg {x : ℚ} (h : 0 ≤ x) : 0 ≤ jsRound2 x := by
  unfold jsRound2
  apply div_nonneg _ (by norm_num : (0 : ℚ) ≤ 100)
  have hf : (0 : ℤ) ≤ ⌊x * 100 + 1/2⌋ := Int.floor_nonneg.mpr (by linarith)
  exact_mod_cast hf

lemma jsRound2_bounds (x : ℚ) : x - 1/200 < jsRound2 x ∧ jsRound2 x ≤ x + 1/200 := by
  unfold jsRound2
  constructor
  · have h := Int.sub_one_lt_floor (x * 100 + 1/2)
    have h' : x * 100 + 1/2 - 1 < ((⌊x * 100 + 1/2⌋ : ℤ) : ℚ) := by
      exact_mod_cast h
    linarith
  · have h := Int.floor_le (x * 100 + 1/2)
    have h' : ((⌊x * 100 + 1/2⌋ : ℤ) : ℚ) ≤ x * 100 + 1/2 := by
      exact_mod_cast h
    linarith

lemma calculateOnboardingScore_nonneg (now : ℤ) (a : Article)
    (ss sc : Finset ℤ) : 0 ≤ calculateOnboardingScore now a ss sc := by
  simp only [calculateOnboardingScore]
  apply jsRound2_nonneg
  have h1 : (0 : ℚ) ≤
      (if hoursOld now a < 24 then (1 : ℚ)
        else max (3/10) (1 - hoursOld now a / 48)) := by
    split
    · norm_num
    · exact le_trans (by norm_num) (le_max_left _ _)
  have h2 : (0 : ℚ) ≤ (if a.category_id ∈ sc then (1 : ℚ) else 2) := by
    split <;> norm_num
  have h3 : (0 : ℚ) ≤ (if a.source_id ∈ ss then (1 : ℚ) else 3/2) := by
    split <;> norm_num
  exact mul_nonneg (mul_nonneg (mul_nonneg (by norm_num) h1) h2) h3

lemma WeightMap.get_pos (m : WeightMap) (k : ℤ)
    (h : ∀ k' q, m k' = some q → 0 < q) : 0 < m.get k := by
  unfold WeightMap.get
  split
  · norm_num
  · rename_i w hm
    split
    · norm_num
    · exact h k w hm

lemma publishMinutes_nonneg (a : Article) : 0 ≤ publishMinutes a := by
  unfold publishMinutes
  have h1 : (0 : ℤ) ≤ a.published_at / 60000 % 60 :=
    Int.emod_nonneg _ (by norm_num)
  have h2 : (0 : ℤ) ≤ a.published_at / 1000 % 60 :=
    Int.emod_nonneg _ (by norm_num)
  have h1' : (0 : ℚ) ≤ ((a.published_at / 60000 % 60 : ℤ) : ℚ) := by
    exact_mod_cast h1
  have h2' : (0 : ℚ) ≤ ((a.published_at / 1000 % 60 : ℤ) : ℚ) := by
    exact_mod_cast h2
  have := div_nonneg h2' (by norm_num : (0 : ℚ) ≤ 60)
  linarith

lemma calculateAdoptionScore_nonneg (now : ℤ) (a : Article) (decay : ℚ)
    (ss sc : Finset ℤ) (weights : ScoringWeights)
    (hw : WeightsPositive weights) :
    0 ≤ calculateAdoptionScore now a decay ss sc weights := by
  simp only [calculateAdoptionScore]
  apply jsRound2_nonneg
  have hr : (0 : ℚ) ≤ max (1/10) (1 - hoursOld now a / decay) :=
    le_trans (by norm_num) (le_max_left _ _)
  have hb : (0 : ℚ) ≤ (if hoursOld now a < 2 then
      (if a.source_id ∈ highVolumeSources then (7/5 : ℚ) else 9/5) else 1) := by
    split
    · split <;> norm_num
    · norm_num
  have hcw : (0 : ℚ) ≤ weights.categories.get a.category_id :=
    (WeightMap.get_pos _ _ hw.1).le
  have hsw : (0 : ℚ) ≤ weights.sources.get a.source_id :=
    (WeightMap.get_pos _ _ hw.2).le
  have hcb : (0 : ℚ) ≤ (if a.category_id ∈ sc then (1 : ℚ) else 3/2) := by
    split <;> norm_num
  have hsb : (0 : ℚ) ≤ (if a.source_id ∈ ss then (1 : ℚ) else 13/10) := by
    split <;> norm_num
  have htv : (0 : ℚ) ≤ 1 + (publishMinutes a / 60 * (8/100) - 4/100) := by
    have hpm := publishMinutes_nonneg a
    have : (0 : ℚ) ≤ publishMinutes a / 60 * (8/100) := by positivity
    linarith
  have hiv : (0 : ℚ) ≤ 1 + (((a.id % 1000 : ℤ) : ℚ) / 1000 * (4/100) - 2/100) := by
    have h1 : (0 : ℤ) ≤ a.id % 1000 := Int.emod_nonneg _ (by norm_num)
    have h1' : (0 : ℚ) ≤ ((a.id % 1000 : ℤ) : ℚ) := by exact_mod_cast h1
    have : (0 : ℚ) ≤ ((a.id % 1000 : ℤ) : ℚ) / 1000 * (4/100) := by positivity
    linarith
  exact mul_nonneg (mul_nonneg (mul_nonneg (mul_nonneg (mul_nonneg
    (mul_nonneg (mul_nonneg (by norm_num) hr) hb)
    (mul_nonneg hcw hsw)) hcb) hsb) htv) hiv

lemma sortByScoreDesc_perm (l : List Article) : (sortByScoreDesc l).Perm l :=
  List.perm_insertionSort _ l

lemma map_cat_set_score (articles : List Article) (g : Article → ℚ) :
    (articles.map (fun a => { a with score := some (g a) })).map
        Article.category_id =
      articles.map Article.category_id := by
  rw [List.map_map]
  congr 1

/-- The common shape of the two rerankers: phase-1 output with 6 forced
distinct categories, followed by an arbitrary continuation. -/
lemma first_six_distinct_of_reranked (pool : List Article) (rest : List Article)
    (hpos : ∀ a ∈ pool, (-1 : ℚ) < a.scoreOrZero)
    (h6 : 6 ≤ ((pool.map Article.category_id).toFinset).card) :
    ((((phase1 (min 6 ((pool.map Article.category_id).toFinset).card) pool ∅).1
        ++ rest).take 6).map Article.category_id).Nodup ∧
    (((phase1 (min 6 ((pool.map Article.category_id).toFinset).card) pool ∅).1
        ++ rest).take 6).length = 6 := by
  have hmin : min 6 ((pool.map Article.category_id).toFinset).card = 6 :=
    min_eq_left h6
  rw [hmin]
  have hcard : 6 ≤ ((pool.map Article.category_id).toFinset \ ∅).card := by
    simpa using h6
  obtain ⟨hlen, hnodup, _⟩ := phase1_spec 6 pool ∅ hpos hcard
  have htake := List.take_left ((phase1 6 pool ∅).1) rest
  rw [hlen] at htake
  rw [htake]
  exact ⟨hnodup, hlen⟩

unseal Rat.inv Rat.mul Rat.add Rat.sub in
/-- C5 counterexample: the onboarding-with-seed variant violates the
first-six-distinct-categories property: on a 7-article pool with 6 distinct
categories and two articles in the seed category, its phase 1 front-loads up
to 3 seed-category articles, so the first 6 output categories are
`[1, 1, 2, 3, 4, 5]` — not pairwise distinct. -/
theorem C5_counterexample :
    6 ≤ ((seedPool.map Article.category_id).toFinset).card ∧
    ¬ (((scoreAndSortArticlesOnboardingWithSeed 0 seedPool 1 99).take 6).map
        Article.category_id).Nodup := by
  exact ⟨by decide, by decide⟩

/-- C5 (amended): the first-six-distinct-categories property holds for the
two rerankers that force category rotation in their first six slots — the
standard onboarding reranker, and the adoption reranker provided every stored
interest weight is positive (the invariant the updater maintains): for every
pool with at least 6 distinct category ids, the first 6 output articles have
6 pairwise-distinct categories. It does not hold for the seeded variant. -/
theorem C5_first_six_distinct (now : ℤ) (articles : List Article)
    (h6 : 6 ≤ ((articles.map Article.category_id).toFinset).card)
    (decay : ℚ) (weights : ScoringWeights) (hw : WeightsPositive weights) :
    ((((scoreAndSortArticlesOnboarding now articles).take 6).map
        Article.category_id).Nodup ∧
      ((scoreAndSortArticlesOnboarding now articles).take 6).length = 6) ∧
    ((((scoreAndSortArticlesAdoption now articles decay weights).take 6).map
        Article.category_id).Nodup ∧
      ((scoreAndSortArticlesAdoption now articles decay weights).take 6).length
        = 6) := by
  constructor
  · have hperm := sortByScoreDesc_perm (articles.map (fun a =>
      { a with score := some (calculateOnboardingScore now a ∅ ∅) }))
    have hpos : ∀ b ∈ sortByScoreDesc (articles.map (fun a =>
        { a with score := some (calculateOnboardingScore now a ∅ ∅) })),
        (-1 : ℚ) < b.scoreOrZero := by
      intro b hb
      obtain ⟨a, _, rfl⟩ := List.mem_map.mp (hperm.mem_iff.mp hb)
      have hnn := calculateOnboardingScore_nonneg now a ∅ ∅
      show (-1 : ℚ) < (some (calculateOnboardingScore now a ∅ ∅)).getD 0
      simp only [Option.getD_some]
      linarith
    have hcat : ((sortByScoreDesc (articles.map (fun a =>
        { a with score := some (calculateOnboardingScore now a ∅ ∅) }))).map
          Article.category_id).toFinset =
        (articles.map Article.category_id).toFinset := by
      have h1 := List.toFinset_eq_of_perm _ _ (hperm.map Article.category_id)
      rw [h1, map_cat_set_score]
    simp only [scoreAndSortArticlesOnboarding]
    exact first_six_distinct_of_reranked _ _ hpos (by rw [hcat]; exact h6)
  · have hperm := sortByScoreDesc_perm (articles.map (fun a =>
      { a with score := some (calculateAdoptionScore now a decay ∅ ∅ weights) }))
    have hpos : ∀ b ∈ sortByScoreDesc (articles.map (fun a =>
        { a with score := some (calculateAdoptionScore now a decay ∅ ∅ weights) })),
        (-1 : ℚ) < b.scoreOrZero := by
      intro b hb
      obtain ⟨a, _, rfl⟩ := List.mem_map.mp (hperm.mem_iff.mp hb)
      have hnn := calculateAdoptionScore_nonneg now a decay ∅ ∅ weights hw
      show (-1 : ℚ) < (some (calculateAdoptionScore now a decay ∅ ∅ weights)).getD 0
      simp only [Option.getD_some]
      linarith
    have hcat : ((sortByScoreDesc (articles.map (fun a =>
        { a with score := some (calculateAdoptionScore now a decay ∅ ∅ weights) }))).map
          Article.category_id).toFinset =
        (articles.map Article.category_id).toFinset := by
      have h1 := List.toFinset_eq_of_perm _ _ (hperm.map Article.category_id)
      rw [h1, map_cat_set_score]
    simp only [scoreAndSortArticlesAdoption]
    exact first_six_distinct_of_reranked _ _ hpos (by rw [hcat]; exact h6)

/-- Witness for C5 (amended): the onboarding reranker on the concrete
6-category pool `seedPool` yields 6 distinct categories up front. -/
theorem C5_first_six_distinct_witness :
    (((scoreAndSortArticlesOnboarding 0 seedPool).take 6).map
      Article.category_id).Nodup :=
  (C5_first_six_distinct 0 seedPool (by decide) 24 ScoringWeights.default
    (by
      constructor <;>
        · intro k q h
          simp [ScoringWeights.default, WeightMap.empty] at h)).1.1

lemma getD_bestIdx_mem (e : Article → Bool) (p : Article) (ps : List Article) :
    (p :: ps).getD ((bestIdx e (p :: ps)).getD 0) default ∈ (p :: ps) := by
  cases hbi : bestIdx e (p :: ps) with
  | none => simp [List.getD]
  | some i =>
    obtain ⟨hk, _⟩ := bestIdx_valid e _ i hbi
    simp only [Option.getD_some]
    rw [List.getD_eq_getElem _ default hk]
    exact List.getElem_mem hk

lemma rotationLoop_subset (keys : Finset ℤ) :
    ∀ (fuel : ℕ) (pool : List Article) (counts : ℤ → ℕ) (accLen : ℕ)
      (b : Article), b ∈ rotationLoop keys fuel pool counts accLen →
      b ∈ pool := by
  intro fuel
  induction fuel with
  | zero =>
    intro pool counts accLen b hb
    simp [rotationLoop] at hb
  | succ n ih =>
    intro pool counts accLen b hb
    cases pool with
    | nil => simp [rotationLoop] at hb
    | cons p ps =>
      by_cases hacc : 100 ≤ accLen
      · simp [rotationLoop, if_pos hacc] at hb
      · simp only [rotationLoop, if_neg hacc] at hb
        rcases List.mem_cons.mp hb with heq | hb'
        · rw [heq]
          exact getD_bestIdx_mem _ p ps
        · have hmem := ih _ _ _ _ hb'
          exact (List.eraseIdx_sublist (p :: ps) _).subset hmem

lemma scoreAndSortArticlesOnboarding_mem (now : ℤ) (articles : List Article)
    (b : Article) (hb : b ∈ scoreAndSortArticlesOnboarding now articles) :
    ∃ a ∈ articles,
      b = { a with score := some (calculateOnboardingScore now a ∅ ∅) } := by
  simp only [scoreAndSortArticlesOnboarding] at hb
  have hsortmem : b ∈ sortByScoreDesc (articles.map (fun a =>
      { a with score := some (calculateOnboardingScore now a ∅ ∅) })) := by
    rcases List.mem_append.mp hb with hb1 | hb2
    · exact (phase1_perm _ _ ∅).mem_iff.mpr (List.mem_append.mpr (Or.inl hb1))
    · have hb2' := rotationLoop_subset _ _ _ _ _ b hb2
      exact (phase1_perm _ _ ∅).mem_iff.mpr (List.mem_append.mpr (Or.inr hb2'))
  have hmapmem := (sortByScoreDesc_perm _).mem_iff.mp hsortmem
  obtain ⟨a, ha, heq⟩ := List.mem_map.mp hmapmem
  exact ⟨a, ha, heq.symm⟩

lemma calculateOnboardingScore_empty (now : ℤ) (a : Article) :
    calculateOnboardingScore now a ∅ ∅ =
      if hoursOld now a < 24 then 300
      else jsRound2 (300 * max (3/10) (1 - hoursOld now a / 48)) := by
  simp only [calculateOnboardingScore, Finset.not_mem_empty, if_false]
  by_cases h24 : hoursOld now a < 24
  · rw [if_pos h24, if_pos h24]
    norm_num [jsRound2]
  · rw [if_neg h24, if_neg h24]
    congr 1
    ring

lemma loggedout_score_ne_spec (now : ℤ) (a : Article)
    (h0 : 0 ≤ hoursOld now a) :
    (if hoursOld now a < 24 then (300 : ℚ)
      else jsRound2 (300 * max (3/10) (1 - hoursOld now a / 48))) ≠
    specLoggedOutScore now a 24 := by
  have hb := jsRound2_bounds (300 * max (3/10) (1 - hoursOld now a / 48))
  simp only [specLoggedOutScore]
  by_cases h24 : hoursOld now a < 24
  · rw [if_pos h24]
    have hdiv : (0 : ℚ) ≤ hoursOld now a / 24 := by positivity
    have hmax1 : max (1/10 : ℚ) (1 - hoursOld now a / 24) ≤ 1 :=
      max_le (by norm_num) (by linarith)
    by_cases h2 : hoursOld now a < 2
    · rw [if_pos h2]
      intro heq
      linarith [heq, hmax1]
    · rw [if_neg h2]
      intro heq
      linarith [heq, hmax1]
  · rw [if_neg h24]
    push_neg at h24
    have h2 : ¬(hoursOld now a < 2) := by linarith
    rw [if_neg h2]
    have hmax2 : max (1/10 : ℚ) (1 - hoursOld now a / 24) = 1/10 := by
      apply max_eq_left
      have h1 : (1 : ℚ) ≤ hoursOld now a / 24 := by
        rw [le_div_iff (by norm_num : (0 : ℚ) < 24)]
        linarith
      linarith
    rw [hmax2]
    intro heq
    have hmax3 : (3/10 : ℚ) ≤ max (3/10) (1 - hoursOld now a / 48) :=
      le_max_left _ _
    have hgt : (90 : ℚ) - 1/200 <
        jsRound2 (300 * max (3/10) (1 - hoursOld now a / 48)) := by
      linarith [hb.1, hmax3]
    rw [heq] at hgt
    linarith

unseal Rat.inv Rat.mul Rat.add Rat.sub in
/-- C4 counterexample: for a one-hour-old candidate the logged-out branch
scores it `300`, not the claimed
`100 * max(0.1, 1 - hoursOld/recencyDecayHours) * 2.5 ≈ 239.58`. -/
theorem C4_counterexample :
    (loggedOutFeedRanked nowFresh [artFresh]).map Article.score = [some 300] ∧
    specLoggedOutScore nowFresh artFresh 24 ≠ 300 := by
  exact ⟨by decide, by decide⟩

/-- C4 (amended): the logged-out branch scores candidates with the
*onboarding* scorer (with empty seen-sets), not the spec's logged-out
formula: every ranked article's raw score equals
`round2(300 * (1 if hoursOld < 24 else max(0.3, 1 - hoursOld/48)))` — the
`×2.0` new-category and `×1.5` new-source bonuses always fire, there is no
`×2.5` breaking-news boost, no dependence on `recencyDecayHours`, and no
category/source weights; for any candidate that is not future-dated this
differs from the spec formula. -/
theorem C4_loggedout_uses_onboarding_scoring (now : ℤ)
    (articles : List Article) (b : Article)
    (hb : b ∈ loggedOutFeedRanked now articles) :
    ∃ a ∈ articles,
      b.id = a.id ∧ b.category_id = a.category_id ∧
      b.source_id = a.source_id ∧
      b.score = some (if hoursOld now a < 24 then 300
        else jsRound2 (300 * max (3/10) (1 - hoursOld now a / 48))) ∧
      (0 ≤ hoursOld now a → b.score ≠ some (specLoggedOutScore now a 24)) := by
  obtain ⟨a, ha, rfl⟩ := scoreAndSortArticlesOnboarding_mem now articles b hb
  have hscore : ({ a with
      score := some (calculateOnboardingScore now a ∅ ∅) } : Article).score =
      some (calculateOnboardingScore now a ∅ ∅) := rfl
  refine ⟨a, ha, rfl, rfl, rfl, ?_, ?_⟩
  · rw [hscore, calculateOnboardingScore_empty]
  · intro h0 heq
    rw [hscore, calculateOnboardingScore_empty] at heq
    exact loggedout_score_ne_spec now a h0 (Option.some.inj heq)

unseal Rat.inv Rat.mul Rat.add Rat.sub in
/-- Witness for C4 (amended): applied to the singleton candidate list at the
concrete request time. -/
theorem C4_loggedout_uses_onboarding_scoring_witness :
    ∃ a ∈ [artFresh],
      (scoreAndSortArticlesOnboarding nowFresh [artFresh]).head!.id = a.id ∧
      (scoreAndSortArticlesOnboarding nowFresh [artFresh]).head!.category_id
        = a.category_id ∧
      (scoreAndSortArticlesOnboarding nowFresh [artFresh]).head!.source_id
        = a.source_id ∧
      (scoreAndSortArticlesOnboarding nowFresh [artFresh]).head!.score =
        some (if hoursOld nowFresh a < 24 then 300
          else jsRound2 (300 * max (3/10) (1 - hoursOld nowFresh a / 48))) ∧
      (0 ≤ hoursOld nowFresh a →
        (scoreAndSortArticlesOnboarding nowFresh [artFresh]).head!.score ≠
          some (specLoggedOutScore nowFresh a 24)) :=
  C4_loggedout_uses_onboarding_scoring nowFresh [artFresh] _
    (by unfold loggedOutFeedRanked; exact List.head!_mem_self (by decide))

/-!
## Score normalizer lemmas (claims C6, C7) -/

lemma length_cast_pos (l : List ℝ) (hne : l ≠ []) : (0 : ℝ) < l.length := by
  have := List.length_pos.mpr hne
  exact_mod_cast this

lemma listMean_const (l : List ℝ) (c : ℝ) (hne : l ≠ [])
    (h : ∀ x ∈ l, x = c) : listMean l = c := by
  unfold listMean
  have hsum : l.sum = l.length * c := by
    have := List.sum_eq_card_nsmul l c h
    simpa [nsmul_eq_mul] using this
  have h0 : (l.length : ℝ) ≠ 0 := (length_cast_pos l hne).ne'
  rw [hsum, mul_comm, mul_div_assoc, div_self h0, mul_one]

lemma listPopVar_const (l : List ℝ) (c : ℝ) (hne : l ≠ [])
    (h : ∀ x ∈ l, x = c) : listPopVar l = 0 := by
  unfold listPopVar
  have hmean := listMean_const l c hne h
  have hzero : (l.map (fun s => (s - listMean l) ^ 2)).sum = 0 := by
    apply List.sum_eq_zero
    intro x hx
    obtain ⟨y, hy, rfl⟩ := List.mem_map.mp hx
    rw [h y hy, hmean]
    ring
  rw [hzero]
  exact zero_div _

/-- C7: when all raw scores of a non-empty batch are identical, the
population stddev is 0, the zero-stddev branch is taken (no division
happens), and every article's `adjustedScore` is set to the target mean 50;
the function is total, so it never throws. -/
theorem C7_constant_scores_all_fifty (l : List RArticle) (hne : l ≠ [])
    (hconst : ∀ a ∈ l, ∀ b ∈ l, a.rawScore = b.rawScore) :
    listStdDev (l.map RArticle.rawScore) = 0 ∧
    normalizeScoresToBellCurve l =
      l.map (fun a => { a with adjustedScore := some 50 }) := by
  obtain ⟨a0, ha0⟩ := List.exists_mem_of_ne_nil l hne
  have hmne : l.map RArticle.rawScore ≠ [] := by
    intro hcontra
    exact hne (List.map_eq_nil.mp hcontra)
  have hconst' : ∀ x ∈ l.map RArticle.rawScore, x = a0.rawScore := by
    intro x hx
    obtain ⟨b, hb, rfl⟩ := List.mem_map.mp hx
    exact hconst b hb a0 ha0
  have hvar : listPopVar (l.map RArticle.rawScore) = 0 :=
    listPopVar_const _ _ hmne hconst'
  have hsd : listStdDev (l.map RArticle.rawScore) = 0 := by
    unfold listStdDev
    rw [hvar, Real.sqrt_zero]
  refine ⟨hsd, ?_⟩
  unfold normalizeScoresToBellCurve
  rw [if_neg (by simpa using List.length_pos.mpr hne |>.ne'), if_pos hsd]

/-- Witness for C7: a concrete two-article batch with equal scores. -/
theorem C7_constant_scores_all_fifty_witness :
    listStdDev (bellPoolConst.map RArticle.rawScore) = 0 ∧
    normalizeScoresToBellCurve bellPoolConst =
      bellPoolConst.map (fun a => { a with adjustedScore := some 50 }) :=
  C7_constant_scores_all_fifty bellPoolConst (by simp [bellPoolConst])
    (by
      intro a ha b hb
      simp only [bellPoolConst, List.mem_cons, List.mem_singleton,
        List.not_mem_nil, or_false] at ha hb
      rcases ha with rfl | rfl <;> rcases hb with rfl | rfl <;>
        simp [RArticle.rawScore])

/-!
## Content score lemmas (claim C9) -/

lemma list_sum_eq_range (l : List ℝ) :
    l.sum = ∑ i in Finset.range l.length, l.getD i 0 := by
  induction l with
  | nil => simp
  | cons a xs ih =>
    rw [List.sum_cons, List.length_cons, Finset.sum_range_succ']
    simp only [List.getD_cons_succ, List.getD_cons_zero]
    rw [← ih]
    ring

lemma map_sum_eq_range {α : Type _} (l : List α) (f : α → ℝ) (d : α) :
    (l.map f).sum = ∑ i in Finset.range l.length, f (l.getD i d) := by
  induction l with
  | nil => simp
  | cons a xs ih =>
    rw [List.map_cons, List.sum_cons, List.length_cons, Finset.sum_range_succ']
    simp only [List.getD_cons_succ, List.getD_cons_zero]
    rw [← ih]
    ring

lemma zipWith_mul_sum_eq_range (a : List ℝ) :
    ∀ (b : List ℝ),
      (List.zipWith (fun x y => x * y) a b).sum =
        ∑ i in Finset.range (min a.length b.length),
          (a.getD i 0) * (b.getD i 0) := by
  induction a with
  | nil => intro b; simp
  | cons x xs ih =>
    intro b
    cases b with
    | nil => simp
    | cons y ys =>
      simp only [List.zipWith_cons_cons, List.sum_cons, List.length_cons]
      rw [show min (xs.length + 1) (ys.length + 1) =
        min xs.length ys.length + 1 by omega, Finset.sum_range_succ']
      simp only [List.getD_cons_succ, List.getD_cons_zero]
      rw [ih ys]
      ring

lemma sum_squares_nonneg (l : List ℝ) : 0 ≤ (l.map (fun x => x * x)).sum := by
  apply List.sum_nonneg
  intro x hx
  obtain ⟨y, _, rfl⟩ := List.mem_map.mp hx
  exact mul_self_nonneg y

lemma list_cauchy_schwarz (a b : List ℝ) :
    ((List.zipWith (fun x y => x * y) a b).sum) ^ 2 ≤
      ((a.map (fun x => x * x)).sum) * ((b.map (fun x => x * x)).sum) := by
  rw [zipWith_mul_sum_eq_range, map_sum_eq_range a _ 0, map_sum_eq_range b _ 0]
  simp only [← pow_two]
  calc (∑ i in Finset.range (min a.length b.length),
          a.getD i 0 * b.getD i 0) ^ 2
      ≤ (∑ i in Finset.range (min a.length b.length), (a.getD i 0) ^ 2) *
        (∑ i in Finset.range (min a.length b.length), (b.getD i 0) ^ 2) :=
        Finset.sum_mul_sq_le_sq_mul_sq _ _ _
    _ ≤ (∑ i in Finset.range a.length, (a.getD i 0) ^ 2) *
        (∑ i in Finset.range b.length, (b.getD i 0) ^ 2) := by
        apply mul_le_mul
        · exact Finset.sum_le_sum_of_subset_of_nonneg
            (Finset.range_subset.mpr (min_le_left _ _))
            (fun i _ _ => sq_nonneg _)
        · exact Finset.sum_le_sum_of_subset_of_nonneg
            (Finset.range_subset.mpr (min_le_right _ _))
            (fun i _ _ => sq_nonneg _)
        · exact Finset.sum_nonneg (fun i _ => sq_nonneg _)
        · exact Finset.sum_nonneg (fun i _ => sq_nonneg _)

lemma cosineSimilarity_abs_le_one (a b : List ℝ) : |cosineSimilarity a b| ≤ 1 := by
  simp only [cosineSimilarity]
  split
  · simp
  · split
    · simp
    · rename_i hlen hnorm
      push_neg at hnorm
      obtain ⟨hA0, hB0⟩ := hnorm
      have hAnn : 0 ≤ (a.map (fun x => x * x)).sum := sum_squares_nonneg a
      have hBnn : 0 ≤ (b.map (fun x => x * x)).sum := sum_squares_nonneg b
      have hApos : 0 < Real.sqrt ((a.map (fun x => x * x)).sum) :=
        lt_of_le_of_ne (Real.sqrt_nonneg _) (Ne.symm hA0)
      have hBpos : 0 < Real.sqrt ((b.map (fun x => x * x)).sum) :=
        lt_of_le_of_ne (Real.sqrt_nonneg _) (Ne.symm hB0)
      have hprod : 0 < Real.sqrt ((a.map (fun x => x * x)).sum) *
          Real.sqrt ((b.map (fun x => x * x)).sum) := mul_pos hApos hBpos
      rw [abs_div, abs_of_pos hprod, div_le_one hprod]
      have hcs := list_cauchy_schwarz a b
      have hsq : (Real.sqrt ((a.map (fun x => x * x)).sum) *
          Real.sqrt ((b.map (fun x => x * x)).sum)) ^ 2 =
          ((a.map (fun x => x * x)).sum) * ((b.map (fun x => x * x)).sum) := by
        rw [mul_pow, Real.sq_sqrt hAnn, Real.sq_sqrt hBnn]
      have h1 := Real.sqrt_le_sqrt hcs
      rw [Real.sqrt_sq_eq_abs, ← hsq, Real.sqrt_sq hprod.le] at h1
      exact h1

lemma jsRound2R_bounds (x : ℝ) :
    x - 1/200 < jsRound2R x ∧ jsRound2R x ≤ x + 1/200 := by
  unfold jsRound2R
  constructor
  · have h := Int.sub_one_lt_floor (x * 100 + 1/2)
    have h' : x * 100 + 1/2 - 1 < ((⌊x * 100 + 1/2⌋ : ℤ) : ℝ) := by
      exact_mod_cast h
    linarith
  · have h := Int.floor_le (x * 100 + 1/2)
    have h' : ((⌊x * 100 + 1/2⌋ : ℤ) : ℝ) ≤ x * 100 + 1/2 := by
      exact_mod_cast h
    linarith

lemma abs_jsRound2R_le (x B : ℝ) (h : |x| ≤ B) : |jsRound2R x| ≤ B + 1/100 := by
  have hb := jsRound2R_bounds x
  rw [abs_le] at h ⊢
  constructor
  · linarith [hb.1]
  · linarith [hb.2]

lemma abs_list_sum_le_length (l : List ℝ) (h : ∀ x ∈ l, |x| ≤ 1) :
    |l.sum| ≤ l.length := by
  induction l with
  | nil => simp
  | cons a xs ih =>
    rw [List.sum_cons, List.length_cons]
    have h1 := h a (List.mem_cons_self a xs)
    have h2 := ih (fun x hx => h x (List.mem_cons_of_mem a hx))
    calc |a + xs.sum| ≤ |a| + |xs.sum| := abs_add _ _
      _ ≤ ((xs.length + 1 : ℕ) : ℝ) := by push_cast; linarith

lemma avg_boost_abs_le (e : List ℝ) (L : List (List ℝ)) (M : ℝ) (hM : 0 ≤ M) :
    |(if L.length = 0 then (0 : ℝ)
      else (L.map (cosineSimilarity e)).sum / L.length * M)| ≤ M := by
  split
  · simpa using hM
  · rename_i hlen
    have hpos : (0 : ℝ) < L.length := by
      have := Nat.pos_of_ne_zero hlen
      exact_mod_cast this
    have hsum : |(L.map (cosineSimilarity e)).sum| ≤ (L.length : ℝ) := by
      have hh := abs_list_sum_le_length (L.map (cosineSimilarity e))
        (fun x hx => by
          obtain ⟨v, _, rfl⟩ := List.mem_map.mp hx
          exact cosineSimilarity_abs_le_one e v)
      simpa using hh
    have h1 : |(L.map (cosineSimilarity e)).sum| / (L.length : ℝ) ≤ 1 := by
      rw [div_le_one hpos]
      exact hsum
    rw [abs_mul, abs_div, abs_of_pos hpos]
    calc |(L.map (cosineSimilarity e)).sum| / (L.length : ℝ) * |M|
        ≤ 1 * |M| := mul_le_mul_of_nonneg_right h1 (abs_nonneg M)
      _ = M := by rw [one_mul, abs_of_nonneg hM]

open Classical in
lemma cos_pair (x1 x2 y1 y2 : ℝ) :
    cosineSimilarity [x1, x2] [y1, y2] =
      if Real.sqrt (x1 * x1 + (x2 * x2 + 0)) = 0 ∨
          Real.sqrt (y1 * y1 + (y2 * y2 + 0)) = 0 then 0
      else (x1 * y1 + (x2 * y2 + 0)) /
        (Real.sqrt (x1 * x1 + (x2 * x2 + 0)) *
          Real.sqrt (y1 * y1 + (y2 * y2 + 0))) := by
  simp only [cosineSimilarity]
  rw [if_neg (by norm_num)]
  simp only [List.map_cons, List.map_nil, List.zipWith_cons_cons,
    List.zipWith_nil_left, List.sum_cons, List.sum_nil]

lemma cos_cand_liked : cosineSimilarity embCand embLiked = 4/5 := by
  rw [show embCand = [(1 : ℝ), 0] from rfl,
    show embLiked = [(4 : ℝ)/5, 3/5] from rfl, cos_pair,
    show (1 : ℝ) * 1 + (0 * 0 + 0) = 1 by norm_num,
    show (4 : ℝ)/5 * (4/5) + (3/5 * (3/5) + 0) = 1 by norm_num,
    Real.sqrt_one]
  rw [if_neg (by norm_num)]
  norm_num

lemma cos_cand_same : cosineSimilarity embCand embSame = 1 := by
  rw [show embCand = [(1 : ℝ), 0] from rfl,
    show embSame = [(1 : ℝ), 0] from rfl, cos_pair,
    show (1 : ℝ) * 1 + (0 * 0 + 0) = 1 by norm_num,
    Real.sqrt_one]
  rw [if_neg (by norm_num)]
  norm_num

lemma cos_cand_opp : cosineSimilarity embCand embOpp = -1 := by
  rw [show embCand = [(1 : ℝ), 0] from rfl,
    show embOpp = [(-1 : ℝ), 0] from rfl, cos_pair,
    show (1 : ℝ) * 1 + (0 * 0 + 0) = 1 by norm_num,
    show (-1 : ℝ) * (-1) + (0 * 0 + 0) = 1 by norm_num,
    Real.sqrt_one]
  rw [if_neg (by norm_num)]
  norm_num

lemma content_score_scenario :
    calculateDirectContentScore embCand [embLiked, embLiked, embLiked] [] (1/2)
      = 44 := by
  simp only [calculateDirectContentScore, List.map_cons, List.map_nil,
    List.sum_cons, List.sum_nil, List.length_cons, List.length_nil,
    cos_cand_liked]
  norm_num [jsRound2R]

lemma content_score_both_sets :
    calculateDirectContentScore embCand [embSame] [embOpp] (1/2) = 110 := by
  simp only [calculateDirectContentScore, List.map_cons, List.map_nil,
    List.sum_cons, List.sum_nil, List.length_cons, List.length_nil,
    cos_cand_same, cos_cand_opp]
  norm_num [jsRound2R]

/-- C9 counterexample: with liked `[1,0]` and disliked `[-1,0]` and the
candidate `[1,0]`, the content score is `110`, exceeding the claimed
`±(10 + strengthMultiplier * 90) = ±55` bound: when both sets are non-empty
the code *adds* the boost and subtracts the penalty (each bounded by 55)
without re-averaging by count, so the total is only bounded by twice the
claimed range. -/
theorem C9_counterexample :
    calculateDirectContentScore embCand [embSame] [embOpp] (1/2) = 110 ∧
    ¬ |calculateDirectContentScore embCand [embSame] [embOpp] (1/2)| ≤
        10 + (1/2 : ℝ) * 90 := by
  refine ⟨content_score_both_sets, ?_⟩
  rw [content_score_both_sets]
  norm_num

/-- C9 (amended): the scenario holds — cosine similarity `0.8` to each of 3
liked embeddings, none disliked, strength `0.5` gives content score
`0.8 * 55 = 44`. The general bound is `±(10 + s*90)` (up to the `1/200`
rounding slack) only when one of the two sets is empty; when both are
non-empty the boost and penalty are *not* averaged by count (that averaging
exists only in the unused Vectorize-based `calculateContentScore`), and the
sound bound is `±2 * (10 + s*90)`. -/
theorem C9_content_score_bounds :
    (calculateDirectContentScore embCand [embLiked, embLiked, embLiked] []
        (1/2) = 44) ∧
    (∀ (e : List ℝ) (L D : List (List ℝ)) (s : ℝ), 0 ≤ s →
      (|calculateDirectContentScore e L D s| ≤ 2 * (10 + s * 90) + 1/100) ∧
      (D = [] → |calculateDirectContentScore e L D s| ≤ (10 + s * 90) + 1/100)) := by
  refine ⟨content_score_scenario, ?_⟩
  intro e L D s hs
  have hM : (0 : ℝ) ≤ 10 + s * 90 := by nlinarith
  have hb := avg_boost_abs_le e L (10 + s * 90) hM
  have hp := avg_boost_abs_le e D (10 + s * 90) hM
  simp only [calculateDirectContentScore]
  constructor
  · apply abs_jsRound2R_le
    have htri := abs_add
      (if L.length = 0 then (0 : ℝ)
        else (L.map (cosineSimilarity e)).sum / L.length * (10 + s * 90))
      (-(if D.length = 0 then (0 : ℝ)
        else (D.map (cosineSimilarity e)).sum / D.length * (10 + s * 90)))
    rw [abs_neg] at htri
    rw [sub_eq_add_neg]
    linarith
  · intro hD
    subst hD
    apply abs_jsRound2R_le
    simpa using hb

/-- Witness for C9 (amended): the general bound applied at the
counterexample inputs. -/
theorem C9_content_score_bounds_witness :
    |calculateDirectContentScore embCand [embSame] [embOpp] (1/2)| ≤
      2 * (10 + (1/2 : ℝ) * 90) + 1/100 :=
  (C9_content_score_bounds.2 embCand [embSame] [embOpp] (1/2) (by norm_num)).1

/-!
## Bell-curve normalization lemmas (claim C6) -/

lemma bellPool_scores :
    bellPool.map RArticle.rawScore =
      [0, 10, 10, 10, 10, 10, 10, 10, 10, 10] := rfl

lemma bellPool_mean :
    listMean [(0 : ℝ), 10, 10, 10, 10, 10, 10, 10, 10, 10] = 9 := by
  unfold listMean
  norm_num [List.sum_cons, List.sum_nil]

lemma bellPool_var :
    listPopVar [(0 : ℝ), 10, 10, 10, 10, 10, 10, 10, 10, 10] = 9 := by
  unfold listPopVar
  rw [bellPool_mean]
  norm_num [List.map_cons, List.map_nil, List.sum_cons, List.sum_nil]

lemma bellPool_stddev :
    listStdDev [(0 : ℝ), 10, 10, 10, 10, 10, 10, 10, 10, 10] = 3 := by
  unfold listStdDev
  rw [bellPool_var, show (9 : ℝ) = 3 ^ 2 by norm_num,
    Real.sqrt_sq (by norm_num : (0 : ℝ) ≤ 3)]

lemma bellPool_out :
    adjustedScores (normalizeScoresToBellCurve bellPool) =
      [0, 57, 57, 57, 57, 57, 57, 57, 57, 57] := by
  have hlen : ¬ bellPool.length = 0 := by simp [bellPool]
  simp only [normalizeScoresToBellCurve, if_neg hlen, bellPool_scores,
    bellPool_stddev, bellPool_mean]
  rw [if_neg (by norm_num : ¬(3 : ℝ) = 0)]
  unfold adjustedScores
  simp only [bellPool, List.map_cons, List.map_nil]
  norm_num [RArticle.rawScore, jsRoundR, max_def]

/-- C6 counterexample: for the batch with raw scores `[0, 10, …, 10]` the
low article's ideal adjusted score `round(50 - 60) = -10` is clamped to 0,
pushing the output mean to `51.3` — more than the half-point rounding
tolerance away from the target 50 (the stddev also collapses to `17.1`).
The claim as stated (mean 50 and stddev 20 up to rounding, for *every*
non-empty batch) is therefore false on the code. -/
theorem C6_counterexample : ¬ specBellCurveClaim bellPool := by
  intro h
  have h1 := h.1
  rw [bellPool_out] at h1
  rw [show listMean [(0 : ℝ), 57, 57, 57, 57, 57, 57, 57, 57, 57] = 513/10 by
    unfold listMean; norm_num [List.sum_cons, List.sum_nil]] at h1
  norm_num [abs_le] at h1

lemma jsRoundR_err (x : ℝ) : |jsRoundR x - x| ≤ 1/2 := by
  unfold jsRoundR
  rw [abs_le]
  constructor
  · have h := Int.sub_one_lt_floor (x + 1/2)
    have h' : x + 1/2 - 1 < ((⌊x + 1/2⌋ : ℤ) : ℝ) := by exact_mod_cast h
    linarith
  · have h := Int.floor_le (x + 1/2)
    have h' : ((⌊x + 1/2⌋ : ℤ) : ℝ) ≤ x + 1/2 := by exact_mod_cast h
    linarith

lemma list_sum_zero_of_nonneg :
    ∀ (l : List ℝ), (∀ x ∈ l, 0 ≤ x) → l.sum = 0 → ∀ x ∈ l, x = 0 := by
  intro l
  induction l with
  | nil => intro _ _ x hx; simp at hx
  | cons a xs ih =>
    intro hnn hsum x hx
    have hs : 0 ≤ xs.sum :=
      List.sum_nonneg (fun y hy => hnn y (List.mem_cons_of_mem a hy))
    have ha : 0 ≤ a := hnn a (List.mem_cons_self a xs)
    rw [List.sum_cons] at hsum
    rcases List.mem_cons.mp hx with rfl | hx'
    · linarith
    · exact ih (fun y hy => hnn y (List.mem_cons_of_mem a hy))
        (by linarith) x hx'

/-- Core perturbation bound: if a family of values is `50 + D i + E i` with
the `D i` summing to 0 and having sum of squares `400 n` (ideal z-scores
scaled to stddev 20) and each `|E i| ≤ 1/2` (rounding errors), then the
family's mean is within `1/2` of 50 and its population stddev within `1/2`
of 20. -/
lemma bell_bound_core (n : ℕ) (hn : 0 < n) (D E : ℕ → ℝ)
    (hD0 : ∑ i in Finset.range n, D i = 0)
    (hD2 : ∑ i in Finset.range n, (D i) ^ 2 = 400 * n)
    (hE : ∀ i ∈ Finset.range n, |E i| ≤ 1/2) :
    |(∑ i in Finset.range n, (50 + D i + E i)) / n - 50| ≤ 1/2 ∧
    |Real.sqrt ((∑ i in Finset.range n,
        ((50 + D i + E i) -
          (∑ j in Finset.range n, (50 + D j + E j)) / n) ^ 2) / n) - 20|
      ≤ 1/2 := by
  have hnR : (0 : ℝ) < n := by exact_mod_cast hn
  have hnne : (n : ℝ) ≠ 0 := hnR.ne'
  have hsum : ∑ i in Finset.range n, (50 + D i + E i) =
      50 * n + ∑ i in Finset.range n, E i := by
    rw [Finset.sum_add_distrib, Finset.sum_add_distrib, hD0,
      Finset.sum_const, Finset.card_range]
    simp [nsmul_eq_mul]
    ring
  have hSabs : |∑ i in Finset.range n, E i| ≤ n / 2 := by
    calc |∑ i in Finset.range n, E i|
        ≤ ∑ i in Finset.range n, |E i| := Finset.abs_sum_le_sum_abs _ _
      _ ≤ ∑ _i in Finset.range n, (1/2 : ℝ) := Finset.sum_le_sum hE
      _ = n / 2 := by
          rw [Finset.sum_const, Finset.card_range]
          simp [nsmul_eq_mul]
          ring
  have hmean : (∑ i in Finset.range n, (50 + D i + E i)) / n =
      50 + (∑ i in Finset.range n, E i) / n := by
    rw [hsum]
    field_simp
  constructor
  · rw [hmean]
    have : |(∑ i in Finset.range n, E i) / n| ≤ 1/2 := by
      rw [abs_div, abs_of_pos hnR, div_le_iff hnR]
      linarith
    calc |50 + (∑ i in Finset.range n, E i) / n - 50|
        = |(∑ i in Finset.range n, E i) / n| := by ring_nf
      _ ≤ 1/2 := this
  · have hdecomp : ∀ i ∈ Finset.range n,
        ((50 + D i + E i) -
          (∑ j in Finset.range n, (50 + D j + E j)) / n) ^ 2 =
        (D i) ^ 2 +
          2 * (D i * (E i - (∑ j in Finset.range n, E j) / n)) +
          (E i - (∑ j in Finset.range n, E j) / n) ^ 2 := by
      intro i _
      rw [hmean]
      ring
    have hT2nn : 0 ≤ ∑ i in Finset.range n,
        (E i - (∑ j in Finset.range n, E j) / n) ^ 2 :=
      Finset.sum_nonneg (fun i _ => sq_nonneg _)
    have hE2 : ∑ i in Finset.range n, (E i) ^ 2 ≤ n / 4 := by
      calc ∑ i in Finset.range n, (E i) ^ 2
          ≤ ∑ _i in Finset.range n, (1/4 : ℝ) := by
            apply Finset.sum_le_sum
            intro i hi
            have h1 := hE i hi
            have h2 := abs_le.mp h1
            nlinarith [h2.1, h2.2]
        _ = n / 4 := by
            rw [Finset.sum_const, Finset.card_range]
            simp [nsmul_eq_mul]
            ring
    have hT2exp : ∑ i in Finset.range n,
        (E i - (∑ j in Finset.range n, E j) / n) ^ 2 =
        (∑ i in Finset.range n, (E i) ^ 2) -
          (∑ j in Finset.range n, E j) ^ 2 / n := by
      have h1 : ∀ i ∈ Finset.range n,
          (E i - (∑ j in Finset.range n, E j) / n) ^ 2 =
          (E i) ^ 2 -
            (2 * ((∑ j in Finset.range n, E j) / n)) * E i +
            ((∑ j in Finset.range n, E j) / n) ^ 2 := fun i _ => by ring
      rw [Finset.sum_congr rfl h1, Finset.sum_add_distrib,
        Finset.sum_sub_distrib, ← Finset.mul_sum, Finset.sum_const,
        Finset.card_range]
      simp only [nsmul_eq_mul]
      field_simp
      ring
    have hT2le : ∑ i in Finset.range n,
        (E i - (∑ j in Finset.range n, E j) / n) ^ 2 ≤ n / 4 := by
      rw [hT2exp]
      have : 0 ≤ (∑ j in Finset.range n, E j) ^ 2 / n :=
        div_nonneg (sq_nonneg _) hnR.le
      linarith
    set T2 := ∑ i in Finset.range n,
      (E i - (∑ j in Finset.range n, E j) / n) ^ 2 with hT2def
    set t := Real.sqrt (T2 / n) with htdef
    have ht2 : t ^ 2 = T2 / n := Real.sq_sqrt (div_nonneg hT2nn hnR.le)
    have htnn : 0 ≤ t := Real.sqrt_nonneg _
    have hthalf : t ≤ 1/2 := by
      have hq : T2 / n ≤ 1/4 := by
        rw [div_le_iff hnR]
        linarith
      calc t ≤ Real.sqrt (1/4) := Real.sqrt_le_sqrt hq
        _ = 1/2 := by
            rw [show (1/4 : ℝ) = (1/2) ^ 2 by norm_num,
              Real.sqrt_sq (by norm_num : (0:ℝ) ≤ 1/2)]
    set C := ∑ i in Finset.range n,
      D i * (E i - (∑ j in Finset.range n, E j) / n) with hCdef
    have hCS : C ^ 2 ≤ (400 * n) * T2 := by
      have h := Finset.sum_mul_sq_le_sq_mul_sq (Finset.range n) D
        (fun i => E i - (∑ j in Finset.range n, E j) / n)
      rw [hD2] at h
      exact h
    have hCabs : |C| ≤ 20 * n * t := by
      have h20 : (0 : ℝ) ≤ 20 * n * t := by positivity
      have hsq : (20 * (n : ℝ) * t) ^ 2 = 400 * n * T2 := by
        rw [mul_pow, mul_pow, ht2]
        field_simp
        ring
      have h1 : Real.sqrt (C ^ 2) ≤ Real.sqrt ((20 * (n : ℝ) * t) ^ 2) := by
        apply Real.sqrt_le_sqrt
        rw [hsq]
        exact hCS
      rw [Real.sqrt_sq_eq_abs, Real.sqrt_sq h20] at h1
      exact h1
    have hvar : (∑ i in Finset.range n,
        ((50 + D i + E i) -
          (∑ j in Finset.range n, (50 + D j + E j)) / n) ^ 2) / n =
        400 + 2 * C / n + T2 / n := by
      rw [Finset.sum_congr rfl hdecomp, Finset.sum_add_distrib,
        Finset.sum_add_distrib, hD2, ← Finset.mul_sum, ← hCdef, ← hT2def]
      field_simp
    have hCb := abs_le.mp hCabs
    have hlow : (20 - t) ^ 2 ≤ 400 + 2 * C / n + T2 / n := by
      have h2 : -(40 * t) ≤ 2 * C / n := by
        rw [le_div_iff hnR]
        nlinarith [hCb.1]
      calc (20 - t) ^ 2 = 400 - 40 * t + t ^ 2 := by ring
        _ ≤ 400 + 2 * C / n + T2 / n := by rw [← ht2]; linarith
    have hhigh : 400 + 2 * C / n + T2 / n ≤ (20 + t) ^ 2 := by
      have h2 : 2 * C / n ≤ 40 * t := by
        rw [div_le_iff hnR]
        nlinarith [hCb.2]
      calc 400 + 2 * C / n + T2 / n ≤ 400 + 40 * t + t ^ 2 := by
            rw [← ht2]; linarith
        _ = (20 + t) ^ 2 := by ring
    rw [hvar, abs_le]
    constructor
    · have hge : 20 - t ≤ Real.sqrt (400 + 2 * C / n + T2 / n) := by
        have h1 : Real.sqrt ((20 - t) ^ 2) ≤
            Real.sqrt (400 + 2 * C / n + T2 / n) := Real.sqrt_le_sqrt hlow
        rw [Real.sqrt_sq_eq_abs] at h1
        exact le_trans (le_abs_self _) h1
      linarith
    · have hle : Real.sqrt (400 + 2 * C / n + T2 / n) ≤ 20 + t := by
        have h1 : Real.sqrt (400 + 2 * C / n + T2 / n) ≤
            Real.sqrt ((20 + t) ^ 2) := Real.sqrt_le_sqrt hhigh
        rw [Real.sqrt_sq (by linarith : (0 : ℝ) ≤ 20 + t)] at h1
        exact h1
      linarith

lemma normalize_of_stddev_ne (l : List RArticle) (hne : l ≠ [])
    (hσ : listStdDev (l.map RArticle.rawScore) ≠ 0) :
    normalizeScoresToBellCurve l = l.map (fun a =>
      { a with adjustedScore := some (max 0 (jsRoundR (idealAdjusted l a))) }) := by
  have hlen0 : ¬ l.length = 0 := fun h => hne (List.length_eq_zero.mp h)
  simp only [normalizeScoresToBellCurve, if_neg hlen0, if_neg hσ]
  rfl

lemma adjustedScores_normalize (l : List RArticle) (hne : l ≠ [])
    (hσ : listStdDev (l.map RArticle.rawScore) ≠ 0)
    (hnc : ∀ a ∈ l, 0 ≤ jsRoundR (idealAdjusted l a)) :
    adjustedScores (normalizeScoresToBellCurve l) =
      l.map (fun a => jsRoundR (idealAdjusted l a)) := by
  rw [normalize_of_stddev_ne l hne hσ]
  unfold adjustedScores
  rw [List.map_map]
  apply List.map_congr_left
  intro a ha
  simp only [Function.comp_apply, Option.getD_some]
  exact max_eq_right (hnc a ha)

lemma listMean_def (X : List ℝ) : listMean X = X.sum / X.length := rfl

lemma listStdDev_def (X : List ℝ) : listStdDev X = Real.sqrt (listPopVar X) := rfl

lemma listPopVar_def (X : List ℝ) :
    listPopVar X = (X.map (fun s => (s - listMean X) ^ 2)).sum / X.length := rfl

lemma listPopVar_nonneg (X : List ℝ) : 0 ≤ listPopVar X := by
  unfold listPopVar
  apply div_nonneg _ (by positivity)
  apply List.sum_nonneg
  intro x hx
  obtain ⟨y, _, rfl⟩ := List.mem_map.mp hx
  exact sq_nonneg _

/-- C6 (amended): for every non-empty batch in which no ideal adjusted score
rounds below zero (so the non-negativity clamp is inactive), the normalized
scores have sample mean within `1/2` of the target 50, and — when the raw
scores are not all equal — population stddev within `1/2` of the target 20.
(The counterexample shows the claim fails when the clamp is active.) -/
theorem C6_bell_curve_mean_stddev (l : List RArticle) (hne : l ≠ [])
    (hnc : ∀ a ∈ l, 0 ≤ jsRoundR (idealAdjusted l a)) :
    |listMean (adjustedScores (normalizeScoresToBellCurve l)) - 50| ≤ 1/2 ∧
    (rawNonConstant l →
      |listStdDev (adjustedScores (normalizeScoresToBellCurve l)) - 20| ≤ 1/2) := by
  have hlen0 : ¬ l.length = 0 := fun h => hne (List.length_eq_zero.mp h)
  have hnpos : 0 < l.length := Nat.pos_of_ne_zero hlen0
  have hnR : (0 : ℝ) < l.length := by exact_mod_cast hnpos
  by_cases hσ : listStdDev (l.map RArticle.rawScore) = 0
  · have hnorm : normalizeScoresToBellCurve l =
        l.map (fun a => { a with adjustedScore := some 50 }) := by
      simp only [normalizeScoresToBellCurve, if_neg hlen0, if_pos hσ]
    have hadj : adjustedScores (normalizeScoresToBellCurve l) =
        l.map (fun _ => (50 : ℝ)) := by
      rw [hnorm]
      unfold adjustedScores
      rw [List.map_map]
      rfl
    have hmapne : l.map (fun _ => (50 : ℝ)) ≠ [] :=
      fun h => hne (List.map_eq_nil.mp h)
    have hmean50 : listMean (l.map (fun _ => (50 : ℝ))) = 50 :=
      listMean_const _ 50 hmapne
        (by intro x hx; obtain ⟨y, _, rfl⟩ := List.mem_map.mp hx; rfl)
    refine ⟨by rw [hadj, hmean50]; norm_num, ?_⟩
    intro hvar
    exfalso
    have hVnn := listPopVar_nonneg (l.map RArticle.rawScore)
    have hV0 : listPopVar (l.map RArticle.rawScore) = 0 := by
      have h1 := Real.sqrt_eq_zero'.mp hσ
      linarith
    have hS0 : ((l.map RArticle.rawScore).map
        (fun s => (s - listMean (l.map RArticle.rawScore)) ^ 2)).sum = 0 := by
      unfold listPopVar at hV0
      rcases div_eq_zero_iff.mp hV0 with h | h
      · exact h
      · exfalso
        rw [List.length_map] at h
        exact hnR.ne' h
    have hall : ∀ x ∈ l.map RArticle.rawScore,
        x = listMean (l.map RArticle.rawScore) := by
      intro x hx
      have h1 := list_sum_zero_of_nonneg _
        (fun y hy => by
          obtain ⟨z, _, rfl⟩ := List.mem_map.mp hy
          exact sq_nonneg _)
        hS0 ((x - listMean (l.map RArticle.rawScore)) ^ 2)
        (List.mem_map.mpr ⟨x, hx, rfl⟩)
      have h2 := sq_eq_zero_iff.mp h1
      linarith [h2]
    obtain ⟨a, ha, b, hb, hab⟩ := hvar
    apply hab
    rw [hall a.rawScore (List.mem_map.mpr ⟨a, ha, rfl⟩),
      hall b.rawScore (List.mem_map.mpr ⟨b, hb, rfl⟩)]
  · -- stddev ≠ 0: the clamp-free rounding of ideal z-scores
    have hσnn : 0 ≤ listStdDev (l.map RArticle.rawScore) := Real.sqrt_nonneg _
    have hσpos : 0 < listStdDev (l.map RArticle.rawScore) :=
      lt_of_le_of_ne hσnn (Ne.symm hσ)
    have hVnn := listPopVar_nonneg (l.map RArticle.rawScore)
    have hσsq : (listStdDev (l.map RArticle.rawScore)) ^ 2 =
        listPopVar (l.map RArticle.rawScore) := Real.sq_sqrt hVnn
    have hVne : listPopVar (l.map RArticle.rawScore) ≠ 0 := by
      intro h
      apply hσ
      unfold listStdDev
      rw [h, Real.sqrt_zero]
    have hXsum : ∑ i in Finset.range l.length,
        (l.getD i ⟨0, none, none⟩).rawScore =
        listMean (l.map RArticle.rawScore) * l.length := by
      rw [← map_sum_eq_range l RArticle.rawScore ⟨0, none, none⟩]
      unfold listMean
      rw [List.length_map]
      field_simp
    have hVsum : ∑ i in Finset.range l.length,
        ((l.getD i ⟨0, none, none⟩).rawScore -
          listMean (l.map RArticle.rawScore)) ^ 2 =
        listPopVar (l.map RArticle.rawScore) * l.length := by
      have h1 : ((l.map RArticle.rawScore).map
          (fun s => (s - listMean (l.map RArticle.rawScore)) ^ 2)).sum =
          ∑ i in Finset.range l.length,
            ((l.getD i ⟨0, none, none⟩).rawScore -
              listMean (l.map RArticle.rawScore)) ^ 2 := by
        rw [List.map_map, map_sum_eq_range l _ ⟨0, none, none⟩]
        rfl
      rw [← h1]
      unfold listPopVar
      rw [List.length_map]
      field_simp
    have hD0 : ∑ i in Finset.range l.length,
        20 * (((l.getD i ⟨0, none, none⟩).rawScore -
          listMean (l.map RArticle.rawScore)) /
          listStdDev (l.map RArticle.rawScore)) = 0 := by
      have h1 : ∀ i ∈ Finset.range l.length,
          20 * (((l.getD i ⟨0, none, none⟩).rawScore -
            listMean (l.map RArticle.rawScore)) /
            listStdDev (l.map RArticle.rawScore)) =
          (20 / listStdDev (l.map RArticle.rawScore)) *
            (l.getD i ⟨0, none, none⟩).rawScore -
          (20 / listStdDev (l.map RArticle.rawScore)) *
            listMean (l.map RArticle.rawScore) := by
        intro i _
        field_simp
        ring
      rw [Finset.sum_congr rfl h1, Finset.sum_sub_distrib, ← Finset.mul_sum,
        hXsum, Finset.sum_const, Finset.card_range]
      simp only [nsmul_eq_mul]
      ring
    have hD2 : ∑ i in Finset.range l.length,
        (20 * (((l.getD i ⟨0, none, none⟩).rawScore -
          listMean (l.map RArticle.rawScore)) /
          listStdDev (l.map RArticle.rawScore))) ^ 2 =
        (400 : ℝ) * l.length := by
      have h1 : ∀ i ∈ Finset.range l.length,
          (20 * (((l.getD i ⟨0, none, none⟩).rawScore -
            listMean (l.map RArticle.rawScore)) /
            listStdDev (l.map RArticle.rawScore))) ^ 2 =
          (400 / listPopVar (l.map RArticle.rawScore)) *
            ((l.getD i ⟨0, none, none⟩).rawScore -
              listMean (l.map RArticle.rawScore)) ^ 2 := by
        intro i _
        rw [← hσsq]
        field_simp
        ring
      rw [Finset.sum_congr rfl h1, ← Finset.mul_sum, hVsum]
      field_simp
      ring
    have hEb : ∀ i ∈ Finset.range l.length,
        |jsRoundR (idealAdjusted l (l.getD i ⟨0, none, none⟩)) -
          (50 + 20 * (((l.getD i ⟨0, none, none⟩).rawScore -
            listMean (l.map RArticle.rawScore)) /
            listStdDev (l.map RArticle.rawScore)))| ≤ 1/2 := by
      intro i _
      have hid : idealAdjusted l (l.getD i ⟨0, none, none⟩) =
          50 + 20 * (((l.getD i ⟨0, none, none⟩).rawScore -
            listMean (l.map RArticle.rawScore)) /
            listStdDev (l.map RArticle.rawScore)) := rfl
      rw [← hid]
      exact jsRoundR_err _
    obtain ⟨hmeanB, hstdB⟩ := bell_bound_core l.length hnpos
      (fun i => 20 * (((l.getD i ⟨0, none, none⟩).rawScore -
        listMean (l.map RArticle.rawScore)) /
        listStdDev (l.map RArticle.rawScore)))
      (fun i => jsRoundR (idealAdjusted l (l.getD i ⟨0, none, none⟩)) -
        (50 + 20 * (((l.getD i ⟨0, none, none⟩).rawScore -
          listMean (l.map RArticle.rawScore)) /
          listStdDev (l.map RArticle.rawScore))))
      hD0 hD2 hEb
    have hY := adjustedScores_normalize l hne hσ hnc
    have hYsum : (l.map (fun a => jsRoundR (idealAdjusted l a))).sum =
        ∑ i in Finset.range l.length,
          (50 + 20 * (((l.getD i ⟨0, none, none⟩).rawScore -
            listMean (l.map RArticle.rawScore)) /
            listStdDev (l.map RArticle.rawScore)) +
          (jsRoundR (idealAdjusted l (l.getD i ⟨0, none, none⟩)) -
            (50 + 20 * (((l.getD i ⟨0, none, none⟩).rawScore -
              listMean (l.map RArticle.rawScore)) /
              listStdDev (l.map RArticle.rawScore))))) := by
      rw [map_sum_eq_range l _ ⟨0, none, none⟩]
      apply Finset.sum_congr rfl
      intro i _
      ring
    have hmeanY : listMean (adjustedScores (normalizeScoresToBellCurve l)) =
        (∑ i in Finset.range l.length,
          (50 + 20 * (((l.getD i ⟨0, none, none⟩).rawScore -
            listMean (l.map RArticle.rawScore)) /
            listStdDev (l.map RArticle.rawScore)) +
          (jsRoundR (idealAdjusted l (l.getD i ⟨0, none, none⟩)) -
            (50 + 20 * (((l.getD i ⟨0, none, none⟩).rawScore -
              listMean (l.map RArticle.rawScore)) /
              listStdDev (l.map RArticle.rawScore)))))) / l.length := by
      rw [hY, listMean_def, List.length_map, hYsum]
    refine ⟨?_, fun _ => ?_⟩
    · rw [hmeanY]
      exact hmeanB
    · have hstdY : listStdDev (adjustedScores (normalizeScoresToBellCurve l)) =
          Real.sqrt ((∑ i in Finset.range l.length,
            ((50 + 20 * (((l.getD i ⟨0, none, none⟩).rawScore -
              listMean (l.map RArticle.rawScore)) /
              listStdDev (l.map RArticle.rawScore)) +
            (jsRoundR (idealAdjusted l (l.getD i ⟨0, none, none⟩)) -
              (50 + 20 * (((l.getD i ⟨0, none, none⟩).rawScore -
                listMean (l.map RArticle.rawScore)) /
                listStdDev (l.map RArticle.rawScore))))) -
              (∑ j in Finset.range l.length,
                (50 + 20 * (((l.getD j ⟨0, none, none⟩).rawScore -
                  listMean (l.map RArticle.rawScore)) /
                  listStdDev (l.map RArticle.rawScore)) +
                (jsRoundR (idealAdjusted l (l.getD j ⟨0, none, none⟩)) -
                  (50 + 20 * (((l.getD j ⟨0, none, none⟩).rawScore -
                    listMean (l.map RArticle.rawScore)) /
                    listStdDev (l.map RArticle.rawScore)))))) / l.length) ^ 2)
            / l.length) := by
        have hm : listMean (l.map (fun a => jsRoundR (idealAdjusted l a))) =
            (∑ j in Finset.range l.length,
              (50 + 20 * (((l.getD j ⟨0, none, none⟩).rawScore -
                listMean (l.map RArticle.rawScore)) /
                listStdDev (l.map RArticle.rawScore)) +
              (jsRoundR (idealAdjusted l (l.getD j ⟨0, none, none⟩)) -
                (50 + 20 * (((l.getD j ⟨0, none, none⟩).rawScore -
                  listMean (l.map RArticle.rawScore)) /
                  listStdDev (l.map RArticle.rawScore)))))) / l.length := by
          rw [listMean_def, List.length_map, hYsum]
        rw [hY, listStdDev_def, listPopVar_def, List.length_map, List.map_map,
          map_sum_eq_range l _ ⟨0, none, none⟩, hm]
        congr 1
        congr 1
        apply Finset.sum_congr rfl
        intro i _
        simp only [Function.comp_apply]
        ring
      rw [hstdY]
      exact hstdB

lemma bellPoolOk_mean : listMean [(30 : ℝ), 70] = 50 := by
  unfold listMean
  norm_num [List.sum_cons, List.sum_nil]

lemma bellPoolOk_var : listPopVar [(30 : ℝ), 70] = 400 := by
  unfold listPopVar
  rw [bellPoolOk_mean]
  norm_num [List.map_cons, List.map_nil, List.sum_cons, List.sum_nil]

lemma bellPoolOk_stddev : listStdDev [(30 : ℝ), 70] = 20 := by
  unfold listStdDev
  rw [bellPoolOk_var, show (400 : ℝ) = 20 ^ 2 by norm_num,
    Real.sqrt_sq (by norm_num : (0 : ℝ) ≤ 20)]

lemma bellPoolOk_ideal :
    ∀ a ∈ bellPoolOk, 0 ≤ jsRoundR (idealAdjusted bellPoolOk a) := by
  intro a ha
  have hsc : bellPoolOk.map RArticle.rawScore = [30, 70] := rfl
  unfold idealAdjusted
  rw [hsc, bellPoolOk_mean, bellPoolOk_stddev]
  simp only [bellPoolOk, List.mem_cons, List.not_mem_nil, or_false] at ha
  rcases ha with rfl | rfl <;>
    norm_num [RArticle.rawScore, jsRoundR]

/-- Witness for C6: the clamp-free two-article batch with raw scores
`[30, 70]` (mean 50, stddev 20). -/
theorem C6_bell_curve_mean_stddev_witness :
    |listMean (adjustedScores (normalizeScoresToBellCurve bellPoolOk)) - 50|
      ≤ 1/2 ∧
    (rawNonConstant bellPoolOk →
      |listStdDev (adjustedScores (normalizeScoresToBellCurve bellPoolOk)) - 20|
        ≤ 1/2) :=
  C6_bell_curve_mean_stddev bellPoolOk (by simp [bellPoolOk]) bellPoolOk_ideal

end NewsFeed
